import Mathlib

/-!
Verification of the chat backend of the who-else-is-free repository.

The Go repository layer (EventRepository over SQLite) is embedded as pure
functions over an explicit `RepoState` record: each table is a list of rows in
rowid (insertion) order, AUTOINCREMENT counters are carried explicitly, and
`CURRENT_TIMESTAMP` is an explicit clock argument.  Transactions that roll back
on error are embedded as `Except` values: an error result carries no state, so
the caller keeps the pre-call state, exactly as `tx.Rollback()` behaves.

The WebSocket hub (chat_hub.go) is embedded as pure functions over a
`HubState` record; the per-session sliding-window rate limiter `allowMessage`
and the send path `handleSend` are translated directly.

The HMAC session-token layer (auth_tokens.go) is embedded with a concrete
base64url codec; the JSON claims codec and the HMAC-SHA256 function are
parameters of the development, constrained only by the round-trip and
alphabet facts the Go standard library provides.
-/

/-- Row of the events table. -/
structure Event where
  id : Int
  userId : Int
  title : String
  location : String
  time : String
  description : String
  gender : String
  minAge : Int
  maxAge : Int
  dateLabel : String
  createdAt : Int
deriving DecidableEq

/-- Row of the conversations table. -/
structure Conversation where
  id : Int
  title : Option String
  createdBy : Int
  eventId : Option Int
  createdAt : Int
deriving DecidableEq

/-- Row of the conversation_members table; primary key (conversationId, userId). -/
structure ConversationMember where
  conversationId : Int
  userId : Int
  joinedAt : Int
  role : String
deriving DecidableEq

/-- Row of the messages table. -/
structure Message where
  id : Int
  conversationId : Int
  senderId : Int
  body : String
  attachmentUrl : Option String
  deliveryStatus : String
  createdAt : Int
deriving DecidableEq

/-- Row of the conversation_read_state table; primary key (conversationId, userId). -/
structure ReadState where
  conversationId : Int
  userId : Int
  lastReadMessageId : Int
  updatedAt : Int
deriving DecidableEq

/-- Row of the conversation_join_requests table. -/
structure ConversationJoinRequest where
  id : Int
  eventId : Int
  userId : Int
  status : String
  createdAt : Int
  decidedAt : Option Int
  decidedBy : Option Int
deriving DecidableEq

/-- The durable store: every table as a list of rows in rowid order, plus the
AUTOINCREMENT counters and the ambient clock used for CURRENT_TIMESTAMP. -/
structure RepoState where
  events : List Event
  conversations : List Conversation
  members : List ConversationMember
  messages : List Message
  readStates : List ReadState
  joinRequests : List ConversationJoinRequest
  nextEventId : Int
  nextConversationId : Int
  nextMessageId : Int
  nextJoinRequestId : Int
  clock : Int
deriving DecidableEq

/-- The empty database right after schema migration. -/
def RepoState.init : RepoState :=
  { events := [], conversations := [], members := [], messages := [],
    readStates := [], joinRequests := [],
    nextEventId := 1, nextConversationId := 1, nextMessageId := 1,
    nextJoinRequestId := 1, clock := 0 }

/-- Domain errors of the repository layer (the Err* values of part_006). -/
inductive RepoError where
  | eventNotFound
  | conversationNotFound
  | alreadyConversationMember
  | joinRequestExists
  | joinRequestNotFound
  | notEventHost
  | cannotRemoveHost
  | notConversationMember
deriving DecidableEq

/-- selectEventByID: WHERE e.id = ? LIMIT 1 (scan in rowid order). -/
def findEvent (s : RepoState) (eventId : Int) : Option Event :=
  s.events.find? (fun e => e.id == eventId)

/-- selectConversationByEventID: WHERE event_id = ? LIMIT 1. -/
def findConversationByEventId (s : RepoState) (eventId : Int) : Option Conversation :=
  s.conversations.find? (fun c => c.eventId == some eventId)

/-- checkConversationMembership: SELECT 1 WHERE conversation_id = ? AND user_id = ?. -/
def isConversationMember (s : RepoState) (conversationId userId : Int) : Bool :=
  s.members.any (fun m => m.conversationId == conversationId && m.userId == userId)

/-- insertConversationMember: INSERT OR IGNORE under the (conversationId, userId)
primary key, so an existing row is left untouched. -/
def insertMemberRow (s : RepoState) (conversationId userId : Int) (role : String)
    (now : Int) : RepoState :=
  if s.members.any (fun m => m.conversationId == conversationId && m.userId == userId) then s
  else { s with members := s.members ++
          [{ conversationId := conversationId, userId := userId, joinedAt := now, role := role }] }

/-- selectPendingJoinRequest: WHERE event_id = ? AND user_id = ? AND status = pending LIMIT 1. -/
def findPendingJoinRequest (s : RepoState) (eventId userId : Int) :
    Option ConversationJoinRequest :=
  s.joinRequests.find? (fun r =>
    r.eventId == eventId && r.userId == userId && r.status == "pending")

/-- selectJoinRequestByID. -/
def findJoinRequestById (s : RepoState) (id : Int) : Option ConversationJoinRequest :=
  s.joinRequests.find? (fun r => r.id == id)

/-- The space set of unicode.IsSpace for the Latin-1 range, as used by
strings.TrimSpace. -/
def isGoSpace (c : Char) : Bool :=
  c == ' ' || c == '\t' || c == '\n' || c == '\x0B' || c == '\x0C' || c == '\r' ||
    c == '\u0085' || c == '\u00A0'

/-- strings.TrimSpace. -/
def trimSpace (s : String) : String :=
  String.mk (((s.data.dropWhile isGoSpace).reverse.dropWhile isGoSpace).reverse)

structure CreateEventParams where
  userId : Int
  title : String
  location : String
  time : String
  description : String
  gender : String
  minAge : Int
  maxAge : Int
  dateLabel : String
deriving DecidableEq

/-- EventRepository.Create: one transaction inserting the event row, its group
conversation (event_id set, title NULL unless non-blank), and the host as a
member with role owner. -/
def createEvent (s : RepoState) (p : CreateEventParams) (now : Int) : Int × RepoState :=
  let eid := s.nextEventId
  let ev : Event :=
    { id := eid, userId := p.userId, title := p.title, location := p.location,
      time := p.time, description := p.description, gender := p.gender,
      minAge := p.minAge, maxAge := p.maxAge, dateLabel := p.dateLabel, createdAt := now }
  let cid := s.nextConversationId
  let convTitle : Option String := if trimSpace p.title == "" then none else some p.title
  let conv : Conversation :=
    { id := cid, title := convTitle, createdBy := p.userId, eventId := some eid,
      createdAt := now }
  let s1 : RepoState :=
    { s with events := s.events ++ [ev], conversations := s.conversations ++ [conv],
             nextEventId := eid + 1, nextConversationId := cid + 1, clock := now }
  (eid, insertMemberRow s1 cid p.userId "owner" now)

structure UpdateEventParams where
  title : String
  location : String
  time : String
  description : String
  gender : String
  minAge : Int
  maxAge : Int
  dateLabel : String
deriving DecidableEq

/-- EventRepository.Update: UPDATE ... WHERE id = ? AND user_id = ?; zero rows
affected yields ErrEventNotFound.  The host column user_id is never changed. -/
def updateEvent (s : RepoState) (id userId : Int) (p : UpdateEventParams) :
    Except RepoError RepoState :=
  if s.events.any (fun e => e.id == id && e.userId == userId) then
    Except.ok { s with events := s.events.map (fun e =>
      if e.id == id && e.userId == userId then
        { e with title := p.title, location := p.location, time := p.time,
                 description := p.description, gender := p.gender,
                 minAge := p.minAge, maxAge := p.maxAge, dateLabel := p.dateLabel }
      else e) }
  else Except.error RepoError.eventNotFound

/-- EventRepository.Delete: DELETE FROM events WHERE id = ? AND user_id = ?, with
the schema cascades (conversations via event_id, then members, messages and
read state via conversation_id, and join requests via event_id). -/
def deleteEvent (s : RepoState) (id userId : Int) : Except RepoError RepoState :=
  if s.events.any (fun e => e.id == id && e.userId == userId) then
    let deadConvIds := (s.conversations.filter (fun c => c.eventId == some id)).map
      (fun c => c.id)
    Except.ok { s with
      events := s.events.filter (fun e => !(e.id == id && e.userId == userId)),
      conversations := s.conversations.filter (fun c => !(c.eventId == some id)),
      members := s.members.filter (fun m => !(deadConvIds.contains m.conversationId)),
      messages := s.messages.filter (fun m => !(deadConvIds.contains m.conversationId)),
      readStates := s.readStates.filter (fun r => !(deadConvIds.contains r.conversationId)),
      joinRequests := s.joinRequests.filter (fun r => !(r.eventId == id)) }
  else Except.error RepoError.eventNotFound

/-- EventRepository.CreateConversation: insert the conversation, then one member
row per id in memberIds with the creator appended when absent; creator role is
owner, the rest member. -/
def createConversation (s : RepoState) (title : Option String) (createdBy : Int)
    (memberIds : List Int) (eventId : Option Int) (now : Int) :
    Conversation × RepoState :=
  let cid := s.nextConversationId
  let conv : Conversation :=
    { id := cid, title := title, createdBy := createdBy, eventId := eventId,
      createdAt := now }
  let s1 : RepoState :=
    { s with conversations := s.conversations ++ [conv],
             nextConversationId := cid + 1, clock := now }
  let ids := if memberIds.contains createdBy then memberIds else memberIds ++ [createdBy]
  let s2 := ids.foldl (fun acc mid =>
    insertMemberRow acc cid mid (if mid == createdBy then "owner" else "member") now) s1
  (conv, s2)

structure CreateMessageParams where
  conversationId : Int
  senderId : Int
  body : String
  attachmentUrl : Option String
  deliveryStatus : String
deriving DecidableEq

/-- EventRepository.CreateMessage: INSERT ... RETURNING the stored row with the
server-assigned id and created_at. -/
def createMessage (s : RepoState) (p : CreateMessageParams) (now : Int) :
    Message × RepoState :=
  let msg : Message :=
    { id := s.nextMessageId, conversationId := p.conversationId, senderId := p.senderId,
      body := p.body, attachmentUrl := p.attachmentUrl,
      deliveryStatus := p.deliveryStatus, createdAt := now }
  (msg, { s with messages := s.messages ++ [msg],
                 nextMessageId := s.nextMessageId + 1, clock := now })

/-- upsertReadState: INSERT ... ON CONFLICT(conversation_id, user_id) DO UPDATE
SET last_read_message_id = excluded.last_read_message_id.  Note: the stored
value is overwritten unconditionally; there is no MAX against the old value. -/
def upsertReadState (s : RepoState) (conversationId userId x now : Int) : RepoState :=
  if s.readStates.any (fun r => r.conversationId == conversationId && r.userId == userId) then
    { s with readStates := s.readStates.map (fun r =>
        if r.conversationId == conversationId && r.userId == userId then
          { r with lastReadMessageId := x, updatedAt := now }
        else r) }
  else
    { s with readStates := s.readStates ++
        [{ conversationId := conversationId, userId := userId,
           lastReadMessageId := x, updatedAt := now }] }

/-- EventRepository.UpdateReadState: no-op for non-positive ids, else upsert. -/
def updateReadState (s : RepoState) (conversationId userId lastReadMessageId now : Int) :
    RepoState :=
  if lastReadMessageId ≤ 0 then s
  else upsertReadState s conversationId userId lastReadMessageId now

/-- The stored read cursor of (conversation, user), when a row exists. -/
def readCursor (s : RepoState) (conversationId userId : Int) : Option Int :=
  (s.readStates.find? (fun r =>
    r.conversationId == conversationId && r.userId == userId)).map
    (fun r => r.lastReadMessageId)

/-- EventRepository.CreateJoinRequest: event lookup, host and member conflict
checks, pending-duplicate check, then INSERT with status pending. -/
def createJoinRequest (s : RepoState) (eventId userId : Int) (now : Int) :
    Except RepoError (ConversationJoinRequest × RepoState) :=
  match findEvent s eventId with
  | none => Except.error RepoError.eventNotFound
  | some event =>
    if event.userId == userId then Except.error RepoError.alreadyConversationMember
    else
      match findConversationByEventId s eventId with
      | none => Except.error RepoError.conversationNotFound
      | some convo =>
        if isConversationMember s convo.id userId then
          Except.error RepoError.alreadyConversationMember
        else if (findPendingJoinRequest s eventId userId).isSome then
          Except.error RepoError.joinRequestExists
        else
          let req : ConversationJoinRequest :=
            { id := s.nextJoinRequestId, eventId := eventId, userId := userId,
              status := "pending", createdAt := now, decidedAt := none, decidedBy := none }
          Except.ok (req, { s with joinRequests := s.joinRequests ++ [req],
                                   nextJoinRequestId := s.nextJoinRequestId + 1,
                                   clock := now })

/-- The row update of updateJoinRequestStatus on one row. -/
def setStatusFun (status : String) (decidedBy id now : Int)
    (r : ConversationJoinRequest) : ConversationJoinRequest :=
  if r.id == id then
    { r with status := status, decidedAt := some now, decidedBy := some decidedBy }
  else r

/-- updateJoinRequestStatus: SET status = ?, decided_at = CURRENT_TIMESTAMP,
decided_by = ? WHERE id = ?. -/
def setJoinRequestStatus (l : List ConversationJoinRequest) (status : String)
    (decidedBy : Int) (id : Int) (now : Int) : List ConversationJoinRequest :=
  l.map (setStatusFun status decidedBy id now)

/-- EventRepository.ApproveJoinRequest: host check, member conflict check, then
one transaction flipping the pending request to approved and inserting the
conversation member.  An error result keeps the pre-call state (rollback). -/
def approveJoinRequest (s : RepoState) (eventId userId approverId : Int) (now : Int) :
    Except RepoError (ConversationJoinRequest × RepoState) :=
  match findEvent s eventId with
  | none => Except.error RepoError.eventNotFound
  | some event =>
    if !(event.userId == approverId) then Except.error RepoError.notEventHost
    else
      match findConversationByEventId s eventId with
      | none => Except.error RepoError.conversationNotFound
      | some convo =>
        if isConversationMember s convo.id userId then
          Except.error RepoError.alreadyConversationMember
        else
          match findPendingJoinRequest s eventId userId with
          | none => Except.error RepoError.joinRequestNotFound
          | some req =>
            let flipped := setJoinRequestStatus s.joinRequests "approved" approverId req.id now
            let s1 : RepoState := { s with joinRequests := flipped, clock := now }
            let s2 := insertMemberRow s1 convo.id userId "member" now
            match findJoinRequestById s2 req.id with
            | none => Except.error RepoError.joinRequestNotFound
            | some updated => Except.ok (updated, s2)

/-- EventRepository.DenyJoinRequest: host check, then one transaction flipping
the pending request to denied; membership is untouched. -/
def denyJoinRequest (s : RepoState) (eventId userId approverId : Int) (now : Int) :
    Except RepoError (ConversationJoinRequest × RepoState) :=
  match findEvent s eventId with
  | none => Except.error RepoError.eventNotFound
  | some event =>
    if !(event.userId == approverId) then Except.error RepoError.notEventHost
    else
      match findPendingJoinRequest s eventId userId with
      | none => Except.error RepoError.joinRequestNotFound
      | some req =>
        let flipped := setJoinRequestStatus s.joinRequests "denied" approverId req.id now
        let s1 : RepoState := { s with joinRequests := flipped, clock := now }
        match findJoinRequestById s1 req.id with
        | none => Except.error RepoError.joinRequestNotFound
        | some updated => Except.ok (updated, s1)

/-- EventRepository.RemoveEventMember: host check first (the host can never be
removed), then membership check, then one transaction deleting the member row
and the read-state row of that user in that conversation. -/
def removeEventMember (s : RepoState) (eventId userId : Int) :
    Except RepoError RepoState :=
  match findEvent s eventId with
  | none => Except.error RepoError.eventNotFound
  | some event =>
    if event.userId == userId then Except.error RepoError.cannotRemoveHost
    else
      match findConversationByEventId s eventId with
      | none => Except.error RepoError.conversationNotFound
      | some convo =>
        if !(isConversationMember s convo.id userId) then
          Except.error RepoError.notConversationMember
        else
          Except.ok { s with
            members := s.members.filter (fun m =>
              !(m.conversationId == convo.id && m.userId == userId)),
            readStates := s.readStates.filter (fun r =>
              !(r.conversationId == convo.id && r.userId == userId)) }

/-- selectLatestMessageForConversation: ORDER BY created_at DESC LIMIT 1.  The
forward scan of the (conversation_id, created_at DESC) index satisfies the
ORDER BY directly, and rows of equal created_at sit inside the index in
ascending rowid order, so among newest-timestamp ties the row with the
smallest id is returned: the running best is replaced only by a strictly
newer created_at. -/
def fetchLatestMessage (s : RepoState) (conversationId : Int) : Option Message :=
  (s.messages.filter (fun m => m.conversationId == conversationId)).foldl
    (fun acc m =>
      match acc with
      | none => some m
      | some b => if b.createdAt < m.createdAt then some m else some b)
    none

/-- countMessagesAfter: SELECT COUNT(1) FROM messages WHERE conversation_id = ?
AND id > ?. -/
def countMessagesAfter (s : RepoState) (conversationId threshold : Int) : Nat :=
  (s.messages.filter (fun m =>
    m.conversationId == conversationId && threshold < m.id)).length

/-- EventRepository.countUnreadMessages: 0 without a latest message; 0 when the
stored cursor already covers the latest id; else count ids above the cursor
(0 when no cursor row exists). -/
def countUnreadMessages (s : RepoState) (conversationId userId : Int)
    (lastMessage : Option Message) : Nat :=
  match lastMessage with
  | none => 0
  | some lm =>
    match readCursor s conversationId userId with
    | some v => if lm.id ≤ v then 0 else countMessagesAfter s conversationId v
    | none => countMessagesAfter s conversationId 0

/-! Hub model (chat_hub.go).  Times are int64 nanoseconds, as in Go time. -/

/-- messageRateWindow = 10 * time.Second, in nanoseconds. -/
def messageRateWindow : Int := 10 * 1000000000

def messageRateLimit : Nat := 30

def messageHistoryCapacity : Nat := 64

/-- ChatClient.allowMessage: compact the window (keep timestamps strictly after
now - window), reject when the limit is already reached, else record now and
clamp the history to its capacity. -/
def allowMessage (history : List Int) (now : Int) : Bool × List Int :=
  let windowStart := now - messageRateWindow
  let filtered := history.filter (fun ts => decide (windowStart < ts))
  if messageRateLimit ≤ filtered.length then (false, filtered)
  else
    let h := filtered ++ [now]
    (true, if messageHistoryCapacity < h.length then h.drop (h.length - messageHistoryCapacity)
           else h)

/-- Sequential sends through the limiter: the list of decisions and the final
history of one session processing send attempts in order. -/
def runAllow (history : List Int) : List Int → List Bool × List Int
  | [] => ([], history)
  | t :: ts =>
    let r := allowMessage history t
    let rest := runAllow r.2 ts
    (r.1 :: rest.1, rest.2)

/-- Inbound JSON envelope; absent JSON fields decode to zero values. -/
structure InboundEnvelope where
  type : String
  conversationId : Int
  body : String
  tempId : String
deriving DecidableEq

/-- Outbound frames, by their type tag (JSON encoding abstracted). -/
inductive ServerFrame where
  | pong
  | systemErrorRateLimited
  | messageNew (tempId : String) (message : Message)
  | conversationMembership (conversationId userId : Int) (action : String)
deriving DecidableEq

/-- Side channels of the send path: a frame enqueued on the own session channel,
or a payload handed to the hub broadcast queue. -/
inductive HubEffect where
  | sendToSelf (frame : ServerFrame)
  | enqueueBroadcast (conversationId : Int) (frame : ServerFrame)
deriving DecidableEq

/-- ChatClient.handleSend: validation (conversationId == 0 or blank body drops
the frame), rate limit, storage-backed membership check, message insert,
best-effort read-cursor update, broadcast enqueue. -/
def handleSend (s : RepoState) (userId : Int) (history : List Int)
    (inbound : InboundEnvelope) (now : Int) : RepoState × List Int × List HubEffect :=
  if inbound.conversationId == 0 || trimSpace inbound.body == "" then (s, history, [])
  else
    let r := allowMessage history now
    if !r.1 then (s, r.2, [HubEffect.sendToSelf ServerFrame.systemErrorRateLimited])
    else if !(isConversationMember s inbound.conversationId userId) then (s, r.2, [])
    else
      let p : CreateMessageParams :=
        { conversationId := inbound.conversationId, senderId := userId,
          body := inbound.body, attachmentUrl := none, deliveryStatus := "sent" }
      let mr := createMessage s p now
      let s2 := updateReadState mr.2 mr.1.conversationId userId mr.1.id now
      (s2, r.2,
        [HubEffect.enqueueBroadcast mr.1.conversationId
          (ServerFrame.messageNew inbound.tempId mr.1)])

/-- ChatClient bookkeeping the hub needs for fan-out: owner, outbound channel
occupancy (capacity 8) and whether that channel has been closed. -/
structure ClientSession where
  userId : Int
  queueLen : Nat
  closedChan : Bool
deriving DecidableEq

/-- The hub indices: client registry, subscribers per conversation, sessions
per user.  Go maps become association lists; set iteration order becomes list
order (the claims proved below do not depend on a particular order). -/
structure HubState where
  clients : List (Nat × ClientSession)
  subscriptions : List (Int × List Nat)
  clientsByUser : List (Int × List Nat)
deriving DecidableEq

/-- Lookup in an association list representing a Go map. -/
def assocFind {α β : Type} [BEq α] (l : List (α × β)) (k : α) : Option β :=
  (l.find? (fun p => p.1 == k)).map (fun p => p.2)

/-- Overwrite the value stored under a key of a Go map. -/
def assocSet {α β : Type} [BEq α] (l : List (α × β)) (k : α) (v : β) : List (α × β) :=
  l.map (fun p => if p.1 == k then (p.1, v) else p)

/-- Delete a key of a Go map. -/
def assocDrop {α β : Type} [BEq α] (l : List (α × β)) (k : α) : List (α × β) :=
  l.filter (fun p => !(p.1 == k))

def lookupBucket (l : List (Int × List Nat)) (k : Int) : Option (List Nat) :=
  assocFind l k

def lookupClient (h : HubState) (k : Nat) : Option ClientSession :=
  assocFind h.clients k

def setClient (h : HubState) (k : Nat) (cs : ClientSession) : HubState :=
  { h with clients := assocSet h.clients k cs }

/-- ChatHub.detachClient: remove the session from the owner bucket of
clientsByUser and drop the bucket when it becomes empty. -/
def detachFromUser (l : List (Int × List Nat)) (u : Int) (k : Nat) :
    List (Int × List Nat) :=
  match assocFind l u with
  | none => l
  | some peers =>
    let peers2 := peers.erase k
    if peers2.isEmpty then assocDrop l u else assocSet l u peers2

def sendChannelCapacity : Nat := 8

/-- One iteration of the fan-out loop of pushToConversation: a select with a
send case and a default.  When the outbound channel has room the frame is
enqueued; when the channel is full the default fires and the slow-consumer
branch closes the channel, deletes the session from the subscriber set being
walked, and detaches it from clientsByUser.  A send case on a channel that is
already closed is ready and panics when the select chooses it, so the default
is not taken there: the hub goroutine crashes, modeled as none. -/
def pushOne (h : HubState) (remaining : List Nat) (k : Nat) :
    Option (HubState × List Nat) :=
  match lookupClient h k with
  | none => some (h, remaining)
  | some cs =>
    if cs.closedChan then none
    else if cs.queueLen < sendChannelCapacity then
      some (setClient h k { cs with queueLen := cs.queueLen + 1 }, remaining)
    else
      let h1 := setClient h k { cs with closedChan := true }
      let h2 := { h1 with clientsByUser := detachFromUser h1.clientsByUser cs.userId k }
      some (h2, remaining.erase k)

/-- Folding one fan-out step over a walk that already panicked stays panicked. -/
def pushStep (acc : Option (HubState × List Nat)) (k : Nat) :
    Option (HubState × List Nat) :=
  match acc with
  | none => none
  | some p => pushOne p.1 p.2 k

/-- ChatHub.pushToConversation: walk the subscriber set of one conversation,
then delete the set when it emptied; none when the walk panics on a closed
channel. -/
def pushToConversation (h : HubState) (conversationId : Int) : Option HubState :=
  match assocFind h.subscriptions conversationId with
  | none => some h
  | some subIds =>
    match subIds.foldl pushStep (some (h, subIds)) with
    | none => none
    | some result =>
      some (if result.2.isEmpty then
        { result.1 with subscriptions := assocDrop result.1.subscriptions conversationId }
      else
        { result.1 with subscriptions := assocSet result.1.subscriptions conversationId result.2 })

/-! Session-token model (auth_tokens.go).  Bytes are naturals below 256, times
are int64 nanoseconds.  The JSON claims codec and HMAC-SHA256 are parameters:
the theorems below use only the round-trip property of the codec, which the Go
encoding/json package provides for sessionClaims. -/

/-- sessionClaims of auth_tokens.go. -/
structure SessionClaims where
  userId : Int
  email : String
  issuedAt : Int
  expiresAt : Int
deriving DecidableEq

/-- defaultSessionTTL = 12 * time.Hour, in nanoseconds. -/
def defaultSessionTTL : Int := 12 * 3600 * 1000000000

inductive TokenError where
  | invalidToken
  | expiredToken
  | malformedToken
deriving DecidableEq

/-- The base64url alphabet of RawURLEncoding. -/
def b64Alphabet : List Char :=
  "ABCDEFGHIJKLMNOPQRSTUVWXYZabcdefghijklmnopqrstuvwxyz0123456789-_".data

def b64Char (n : Nat) : Char := b64Alphabet.getD n 'A'

def b64ValAux : List Char → Nat → Char → Option Nat
  | [], _, _ => none
  | a :: rest, i, c => if a == c then some i else b64ValAux rest (i + 1) c

def b64Val (c : Char) : Option Nat := b64ValAux b64Alphabet 0 c

/-- base64.RawURLEncoding.EncodeToString: three bytes to four sextet chars, no
padding; a one or two byte tail becomes two or three chars. -/
def b64encode : List Nat → List Char
  | [] => []
  | [b0] => [b64Char (b0 / 4), b64Char (b0 % 4 * 16)]
  | [b0, b1] =>
    [b64Char (b0 / 4), b64Char (b0 % 4 * 16 + b1 / 16), b64Char (b1 % 16 * 4)]
  | b0 :: b1 :: b2 :: rest =>
    b64Char (b0 / 4) :: b64Char (b0 % 4 * 16 + b1 / 16) ::
      b64Char (b1 % 16 * 4 + b2 / 64) :: b64Char (b2 % 64) :: b64encode rest

/-- base64.RawURLEncoding.DecodeString (alphabet errors yield none). -/
def b64decode : List Char → Option (List Nat)
  | [] => some []
  | [_] => none
  | [c0, c1] =>
    match b64Val c0, b64Val c1 with
    | some v0, some v1 => some [v0 * 4 + v1 / 16]
    | _, _ => none
  | [c0, c1, c2] =>
    match b64Val c0, b64Val c1, b64Val c2 with
    | some v0, some v1, some v2 => some [v0 * 4 + v1 / 16, v1 % 16 * 16 + v2 / 4]
    | _, _, _ => none
  | c0 :: c1 :: c2 :: c3 :: rest =>
    match b64Val c0, b64Val c1, b64Val c2, b64Val c3, b64decode rest with
    | some v0, some v1, some v2, some v3, some tail =>
      some ((v0 * 4 + v1 / 16) :: (v1 % 16 * 16 + v2 / 4) :: (v2 % 4 * 64 + v3) :: tail)
    | _, _, _, _, _ => none

/-- strings.Split on the dot separator. -/
def splitDot : List Char → List (List Char)
  | [] => [[]]
  | c :: rest =>
    let r := splitDot rest
    if c == '.' then [] :: r
    else
      match r with
      | [] => [[c]]
      | h :: t => (c :: h) :: t

/-- The signer environment: the shared secret plus the two library functions
the Go code calls, kept as parameters (json codec, HMAC). -/
structure TokenEnv where
  secret : List Nat
  marshalClaims : SessionClaims → List Nat
  unmarshalClaims : List Nat → Option SessionClaims
  hmacSHA256 : List Nat → List Nat → List Nat

/-- tokenSigner.sign: base64url of the HMAC of the payload string bytes. -/
def signPart (env : TokenEnv) (payload : List Char) : List Char :=
  b64encode (env.hmacSHA256 env.secret (payload.map Char.toNat))

/-- tokenSigner.issue: claims with expires_at = now + ttl, token =
base64url(marshal claims) dot signature. -/
def issue (env : TokenEnv) (ttl : Int) (userId : Int) (email : String) (now : Int) :
    List Char × SessionClaims :=
  let claims : SessionClaims :=
    { userId := userId, email := email, issuedAt := now, expiresAt := now + ttl }
  let payload := b64encode (env.marshalClaims claims)
  (payload ++ '.' :: signPart env payload, claims)

/-- tokenSigner.verify: split, constant-time signature compare, decode,
unmarshal, then reject when now is strictly after expires_at. -/
def verify (env : TokenEnv) (token : List Char) (now : Int) :
    Except TokenError SessionClaims :=
  match splitDot token with
  | [payloadPart, signaturePart] =>
    if !(signaturePart == signPart env payloadPart) then
      Except.error TokenError.invalidToken
    else
      match b64decode payloadPart with
      | none => Except.error TokenError.malformedToken
      | some payloadBytes =>
        match env.unmarshalClaims payloadBytes with
        | none => Except.error TokenError.malformedToken
        | some claims =>
          if claims.expiresAt < now then Except.error TokenError.expiredToken
          else Except.ok claims
  | _ => Except.error TokenError.malformedToken

/-! Reachable store states: every mutating repository operation the HTTP layer
and the hub invoke, starting from the migrated empty database.  Each step
advances the ambient clock by a non-negative amount, matching the monotone
CURRENT_TIMESTAMP. -/

/-- Result of a transactional call: an error keeps the pre-call state. -/
def applyExcept (s : RepoState) (r : Except RepoError RepoState) : RepoState :=
  match r with
  | Except.ok s2 => s2
  | Except.error _ => s

/-- Result of a transactional call returning a row: an error keeps the
pre-call state. -/
def applyExceptPair (s : RepoState)
    (r : Except RepoError (ConversationJoinRequest × RepoState)) : RepoState :=
  match r with
  | Except.ok p => p.2
  | Except.error _ => s

inductive Reach : RepoState → Prop where
  | init : Reach RepoState.init
  | stepCreateEvent (s : RepoState) (p : CreateEventParams) (dt : Nat) :
      Reach s → Reach (createEvent s p (s.clock + dt)).2
  | stepUpdateEvent (s : RepoState) (id userId : Int) (p : UpdateEventParams) :
      Reach s → Reach (applyExcept s (updateEvent s id userId p))
  | stepDeleteEvent (s : RepoState) (id userId : Int) :
      Reach s → Reach (applyExcept s (deleteEvent s id userId))
  | stepCreateConversation (s : RepoState) (title : Option String) (createdBy : Int)
      (memberIds : List Int) (dt : Nat) :
      Reach s → Reach (createConversation s title createdBy memberIds none (s.clock + dt)).2
  | stepCreateMessage (s : RepoState) (p : CreateMessageParams) (dt : Nat) :
      Reach s → Reach (createMessage s p (s.clock + dt)).2
  | stepUpdateReadState (s : RepoState) (conversationId userId x : Int) (dt : Nat) :
      Reach s → Reach (updateReadState s conversationId userId x (s.clock + dt))
  | stepCreateJoinRequest (s : RepoState) (eventId userId : Int) (dt : Nat) :
      Reach s → Reach (applyExceptPair s (createJoinRequest s eventId userId (s.clock + dt)))
  | stepApproveJoinRequest (s : RepoState) (eventId userId approverId : Int) (dt : Nat) :
      Reach s →
      Reach (applyExceptPair s (approveJoinRequest s eventId userId approverId (s.clock + dt)))
  | stepDenyJoinRequest (s : RepoState) (eventId userId approverId : Int) (dt : Nat) :
      Reach s →
      Reach (applyExceptPair s (denyJoinRequest s eventId userId approverId (s.clock + dt)))
  | stepRemoveEventMember (s : RepoState) (eventId userId : Int) :
      Reach s → Reach (applyExcept s (removeEventMember s eventId userId))

/-- The inductive store invariant: row ids grow along each table, stay below
their AUTOINCREMENT counter, message timestamps are monotone and bounded by
the clock, member rows respect the (conversationId, userId) primary key, each
event has exactly one conversation whose owner-role member is the host, and
pending join requests are unique per pair and exclude the host and members. -/
structure RepoInv (s : RepoState) : Prop where
  eventsSorted : s.events.Pairwise (fun a b => a.id < b.id)
  eventsBounded : ∀ e ∈ s.events, e.id < s.nextEventId
  convsSorted : s.conversations.Pairwise (fun a b => a.id < b.id)
  convsBounded : ∀ c ∈ s.conversations, c.id < s.nextConversationId
  msgsSorted : s.messages.Pairwise (fun a b => a.id < b.id ∧ a.createdAt ≤ b.createdAt)
  msgsBounded : ∀ m ∈ s.messages, m.id < s.nextMessageId ∧ m.createdAt ≤ s.clock
  reqsSorted : s.joinRequests.Pairwise (fun a b => a.id < b.id)
  reqsBounded : ∀ r ∈ s.joinRequests, r.id < s.nextJoinRequestId
  reqsEventBounded : ∀ r ∈ s.joinRequests, r.eventId < s.nextEventId
  membersConvBounded : ∀ m ∈ s.members, m.conversationId < s.nextConversationId
  memberUnique : s.members.Pairwise (fun a b =>
    ¬(a.conversationId = b.conversationId ∧ a.userId = b.userId))
  eventConvUnique : s.conversations.Pairwise (fun a b =>
    ∀ k, a.eventId = some k → b.eventId ≠ some k)
  convEventBounded : ∀ c ∈ s.conversations, ∀ k, c.eventId = some k → k < s.nextEventId
  hostOwner : ∀ e ∈ s.events, ∃ c ∈ s.conversations, c.eventId = some e.id ∧
    ∃ m ∈ s.members, m.conversationId = c.id ∧ m.userId = e.userId ∧ m.role = "owner"
  pendingFree : ∀ r ∈ s.joinRequests, r.status = "pending" →
    (∀ e ∈ s.events, e.id = r.eventId → r.userId ≠ e.userId) ∧
    (∀ c ∈ s.conversations, c.eventId = some r.eventId →
      ∀ m ∈ s.members, ¬(m.conversationId = c.id ∧ m.userId = r.userId))
  pendingUnique : s.joinRequests.Pairwise (fun a b =>
    ¬(a.eventId = b.eventId ∧ a.userId = b.userId ∧
      a.status = "pending" ∧ b.status = "pending"))

/-! Concrete states used by witnesses and counterexamples. -/

def demoEventParams : CreateEventParams :=
  { userId := 1, title := "Running Buddy", location := "Phoenix Park", time := "09:00",
    description := "Morning run.", gender := "Any", minAge := 20, maxAge := 30,
    dateLabel := "Today" }

/-- One event (id 1, host 1) with its group conversation (id 1). -/
def demoS1 : RepoState := (createEvent RepoState.init demoEventParams 0).2

/-- demoS1 plus a pending join request (id 1) by user 2 for event 1. -/
def demoS2 : RepoState := applyExceptPair demoS1 (createJoinRequest demoS1 1 2 0)

def demoMsgParams : CreateMessageParams :=
  { conversationId := 1, senderId := 1, body := "hi", attachmentUrl := none,
    deliveryStatus := "sent" }

/-- demoS2 plus two messages (ids 1 and 2) in conversation 1. -/
def demoS3 : RepoState :=
  (createMessage (createMessage demoS2 demoMsgParams 0).2 demoMsgParams 3).2

/-- A store holding a read-cursor row (conversation 1, user 1) at message 5. -/
def demoCursorState : RepoState :=
  { RepoState.init with readStates :=
      [{ conversationId := 1, userId := 1, lastReadMessageId := 5, updatedAt := 0 }] }

/-- A reachable store where conversation 1 holds two messages (ids 1 and 2)
sharing one created_at and user 2 has the read cursor at message id 1. -/
def demoTieState : RepoState :=
  updateReadState (createMessage (createMessage demoS2 demoMsgParams 0).2 demoMsgParams 0).2 1 2 1 0

/-- A hub with one client (key 7, user 42) whose outbound channel is full,
subscribed to conversations 1 and 2. -/
def demoHub : HubState :=
  { clients := [(7, { userId := 42, queueLen := 8, closedChan := false })],
    subscriptions := [(1, [7]), (2, [7])],
    clientsByUser := [(42, [7])] }

/-- A message:send frame with a negative conversation id. -/
def demoNegativeEnvelope : InboundEnvelope :=
  { type := "message:send", conversationId := -1, body := "hi", tempId := "t1" }

/-! A small concrete claims codec for witnesses: decimal byte strings joined by
commas.  The token theorem is parametric in the codec; witnesses only need a
codec that round-trips at one concrete claims value. -/

def natToDecimalBytes (n : Nat) : List Nat := (Nat.toDigits 10 n).map Char.toNat

def intToBytes (i : Int) : List Nat :=
  if i < 0 then 45 :: natToDecimalBytes i.natAbs else natToDecimalBytes i.natAbs

def demoMarshal (c : SessionClaims) : List Nat :=
  intToBytes c.userId ++ 44 :: (c.email.data.map Char.toNat) ++
    44 :: intToBytes c.issuedAt ++ 44 :: intToBytes c.expiresAt

def splitComma : List Nat → List (List Nat)
  | [] => [[]]
  | b :: rest =>
    let r := splitComma rest
    if b == 44 then [] :: r
    else
      match r with
      | [] => [[b]]
      | h :: t => (b :: h) :: t

def decimalBytesToNat (l : List Nat) : Option Nat :=
  l.foldl (fun acc b =>
    match acc with
    | none => none
    | some n => if 48 ≤ b ∧ b ≤ 57 then some (n * 10 + (b - 48)) else none)
    (if l.isEmpty then none else some 0)

def bytesToInt (l : List Nat) : Option Int :=
  match l with
  | 45 :: rest => (decimalBytesToNat rest).map (fun n => -(n : Int))
  | _ => (decimalBytesToNat l).map (fun n => (n : Int))

def demoUnmarshal (l : List Nat) : Option SessionClaims :=
  match splitComma l with
  | [a, b, c, d] => do
    let u ← bytesToInt a
    let iat ← bytesToInt c
    let exp ← bytesToInt d
    pure { userId := u, email := String.mk (b.map Char.ofNat),
           issuedAt := iat, expiresAt := exp }
  | _ => none

/-- A stand-in MAC for witnesses; the token theorem holds for any MAC. -/
def demoMac (secret msg : List Nat) : List Nat :=
  [(secret.foldl (fun a b => a + b) 0 + msg.foldl (fun a b => a + b) 0) % 256,
   msg.length % 256]

def demoTokenEnv : TokenEnv :=
  { secret := [108, 111, 99, 97, 108], marshalClaims := demoMarshal,
    unmarshalClaims := demoUnmarshal, hmacSHA256 := demoMac }

/-! Shared helper lemmas. -/

theorem find?_append_of_none {α : Type} (l1 l2 : List α) (p : α → Bool)
    (h : l1.find? p = none) : (l1 ++ l2).find? p = l2.find? p := by
  induction l1 with
  | nil => simp
  | cons a as ih =>
    rw [List.find?_cons] at h
    cases hp : p a with
    | true => simp [hp] at h
    | false =>
      rw [hp] at h
      simp only [List.cons_append, List.find?_cons, hp]
      exact ih h

theorem find?_upsert_map (l : List ReadState) (c u x now : Int)
    (h : l.any (fun r => r.conversationId == c && r.userId == u) = true) :
    ((l.map (fun r => if r.conversationId == c && r.userId == u then
        { r with lastReadMessageId := x, updatedAt := now } else r)).find?
      (fun r => r.conversationId == c && r.userId == u)).map
      (fun r => r.lastReadMessageId) = some x := by
  induction l with
  | nil => simp at h
  | cons a as ih =>
    by_cases ha : (a.conversationId == c && a.userId == u) = true
    · simp only [List.map_cons, if_pos ha, List.find?_cons]
      have : (({ a with lastReadMessageId := x, updatedAt := now } :
          ReadState).conversationId == c &&
          ({ a with lastReadMessageId := x, updatedAt := now } :
          ReadState).userId == u) = true := ha
      rw [this]
      rfl
    · simp only [List.map_cons, if_neg ha, List.find?_cons]
      rw [Bool.of_not_eq_true ha]
      apply ih
      simp only [List.any_cons, Bool.of_not_eq_true ha, Bool.false_or] at h
      exact h

/-- C1 counterexample: in a store whose cursor for (conversation 1, user 1) is
5, calling updateReadCursor with the smaller positive id 3 stores 3, not the
maximum 5, refuting the MAX(existing, new) no-regression claim. -/
theorem c1_counterexample :
    readCursor demoCursorState 1 1 = some 5 ∧ (3 : Int) ≤ 5 ∧
    readCursor (updateReadState demoCursorState 1 1 3 7) 1 1 = some 3 ∧
    readCursor (updateReadState demoCursorState 1 1 3 7) 1 1 ≠ some 5 := by
  refine ⟨rfl, by decide, rfl, by decide⟩

/-- C1 (amended): UpdateReadState is a no-op when the new id is non-positive;
otherwise it unconditionally overwrites the stored cursor of (c, u) with the
new id (last write wins), so a positive id below the stored value regresses
the cursor. -/
theorem c1_cursor_last_write_wins (s : RepoState) (c u x now : Int) :
    (x ≤ 0 → updateReadState s c u x now = s) ∧
    (0 < x → readCursor (updateReadState s c u x now) c u = some x) := by
  constructor
  · intro hx
    unfold updateReadState
    exact if_pos hx
  · intro hx
    unfold updateReadState
    rw [if_neg (by omega)]
    unfold upsertReadState readCursor
    by_cases hmem : s.readStates.any (fun r => r.conversationId == c && r.userId == u) = true
    · rw [if_pos hmem]
      exact find?_upsert_map s.readStates c u x now hmem
    · rw [if_neg hmem]
      have hnone : s.readStates.find? (fun r => r.conversationId == c && r.userId == u)
          = none := by
        rw [List.find?_eq_none]
        intro r hr
        intro hp
        exact hmem (List.any_eq_true.mpr ⟨r, hr, hp⟩)
      simp only [find?_append_of_none _ _ _ hnone, List.find?_cons]
      simp

/-- Witness applying the C1 amended theorem at concrete inputs. -/
theorem c1_cursor_last_write_wins_witness :
    readCursor (updateReadState demoCursorState 1 1 3 7) 1 1 = some 3 ∧
    updateReadState demoCursorState 1 1 0 7 = demoCursorState :=
  ⟨(c1_cursor_last_write_wins demoCursorState 1 1 3 7).2 (by decide),
   (c1_cursor_last_write_wins demoCursorState 1 1 0 7).1 (by decide)⟩

/-- C8 counterexample: a frame with the negative conversation id -1 and a
non-blank body is not dropped by the initial validation (which only checks
equality with 0): the rate limiter runs and records the send timestamp. -/
theorem c8_counterexample :
    demoNegativeEnvelope.conversationId ≤ 0 ∧
    trimSpace demoNegativeEnvelope.body ≠ "" ∧
    (handleSend RepoState.init 1 [] demoNegativeEnvelope 5).2.1 = [5] ∧
    ([5] : List Int) ≠ [] := by
  refine ⟨by decide, by decide, rfl, by decide⟩

/-- C8 (amended): the initial validation silently drops a frame exactly when
conversationId equals 0 or the body is blank after trimming, before any rate
limiting, membership read, persistence, or reply; a negative conversationId
passes this validation. -/
theorem c8_validation_drop (s : RepoState) (userId : Int) (history : List Int)
    (inbound : InboundEnvelope) (now : Int)
    (h : inbound.conversationId = 0 ∨ trimSpace inbound.body = "") :
    handleSend s userId history inbound now = (s, history, []) := by
  unfold handleSend
  rcases h with h | h <;> simp [h]

/-- Witness applying the C8 amended theorem at a concrete zero-id frame. -/
theorem c8_validation_drop_witness :
    handleSend RepoState.init 1 []
      { type := "message:send", conversationId := 0, body := "hi", tempId := "t" } 5 =
      (RepoState.init, [], []) :=
  c8_validation_drop RepoState.init 1 []
    { type := "message:send", conversationId := 0, body := "hi", tempId := "t" } 5
    (Or.inl rfl)

/-- C10: a rejected send records no timestamp (the post-call history is just
the compacted window), a rejected attempt does not change any later admission
decision, and admission depends only on the count of admitted timestamps still
inside the window. -/
theorem allowMessage_congr (h1 h2 : List Int) (t : Int)
    (h : h1.filter (fun ts => decide (t - messageRateWindow < ts)) =
         h2.filter (fun ts => decide (t - messageRateWindow < ts))) :
    allowMessage h1 t = allowMessage h2 t := by
  unfold allowMessage
  dsimp only
  rw [h]

theorem c10_rejection_stateless (history : List Int) (now t2 : Int) :
    ((allowMessage history now).1 = false →
      (allowMessage history now).2 =
        history.filter (fun ts => decide (now - messageRateWindow < ts))) ∧
    ((allowMessage history now).1 = false → now ≤ t2 →
      allowMessage (allowMessage history now).2 t2 = allowMessage history t2) ∧
    ((allowMessage history now).1 = true ↔
      (history.filter (fun ts => decide (now - messageRateWindow < ts))).length <
        messageRateLimit) := by
  have hfilter : now ≤ t2 →
      (history.filter (fun ts => decide (now - messageRateWindow < ts))).filter
          (fun ts => decide (t2 - messageRateWindow < ts)) =
        history.filter (fun ts => decide (t2 - messageRateWindow < ts)) := by
    intro hle
    rw [List.filter_filter]
    apply List.filter_congr
    intro x _
    by_cases hx : t2 - messageRateWindow < x
    · have hx2 : now - messageRateWindow < x := by omega
      simp [hx, hx2]
    · simp [hx]
  unfold allowMessage
  by_cases hlen : messageRateLimit ≤
      (history.filter (fun ts => decide (now - messageRateWindow < ts))).length
  · rw [if_pos hlen]
    refine ⟨fun _ => rfl, fun _ hle => ?_, ?_⟩
    · exact allowMessage_congr _ _ t2 (hfilter hle)
    · constructor
      · intro hx
        exact absurd hx (by simp)
      · intro hx
        omega
  · rw [if_neg hlen]
    refine ⟨fun hfalse => by simp at hfalse, fun hfalse _ => by simp at hfalse, ?_⟩
    exact ⟨fun _ => by omega, fun _ => rfl⟩

/-- Witness applying the C10 theorem at a concrete full window. -/
theorem c10_rejection_stateless_witness :
    (allowMessage (List.replicate 30 (0 : Int)) 0).2 =
      (List.replicate 30 (0 : Int)).filter
        (fun ts => decide ((0 : Int) - messageRateWindow < ts)) ∧
    allowMessage (allowMessage (List.replicate 30 (0 : Int)) 0).2 1 =
      allowMessage (List.replicate 30 (0 : Int)) 1 :=
  ⟨(c10_rejection_stateless (List.replicate 30 (0 : Int)) 0 1).1 (by decide),
   (c10_rejection_stateless (List.replicate 30 (0 : Int)) 0 1).2.1 (by decide) (by decide)⟩

theorem runAllow_all_admitted (ts : List Int) : ∀ acc : List Int,
    acc.length + ts.length ≤ messageRateLimit →
    (∀ a ∈ acc, ∀ b ∈ ts, b - a < messageRateWindow) →
    (∀ a ∈ ts, ∀ b ∈ ts, b - a < messageRateWindow) →
    runAllow acc ts = (List.replicate ts.length true, acc ++ ts) := by
  induction ts with
  | nil =>
    intro acc _ _ _
    simp [runAllow]
  | cons t rest ih =>
    intro acc hlen hacc hts
    have hfilt : acc.filter (fun x => decide (t - messageRateWindow < x)) = acc := by
      apply List.filter_eq_self.mpr
      intro a ha
      have := hacc a ha t (by simp)
      simp only [decide_eq_true_eq]
      omega
    have hlen2 : acc.length + rest.length + 1 ≤ 30 := by
      have h30 : messageRateLimit = 30 := rfl
      rw [h30] at hlen
      simp only [List.length_cons] at hlen
      omega
    have hstep : allowMessage acc t = (true, acc ++ [t]) := by
      unfold allowMessage
      dsimp only
      rw [hfilt]
      rw [if_neg (by show ¬(30 ≤ acc.length); omega)]
      rw [if_neg (by
        show ¬(64 < (acc ++ [t]).length)
        simp only [List.length_append, List.length_cons, List.length_nil]
        omega)]
    rw [runAllow]
    rw [hstep]
    dsimp only
    rw [ih (acc ++ [t])
      (by
        show (acc ++ [t]).length + rest.length ≤ 30
        simp only [List.length_append, List.length_cons, List.length_nil]
        omega)
      (by
        intro a ha b hb
        rcases List.mem_append.mp ha with ha2 | ha2
        · exact hacc a ha2 b (List.mem_cons_of_mem _ hb)
        · have : a = t := by simpa using ha2
          subst this
          exact hts a (List.mem_cons_self _ _) b (List.mem_cons_of_mem _ hb))
      (by
        intro a ha b hb
        exact hts a (List.mem_cons_of_mem _ ha) b (List.mem_cons_of_mem _ hb))]
    simp only [List.length_cons, List.replicate_succ, List.append_assoc,
      List.singleton_append]

/-- C6: on one session, 30 sends inside a 10 second span are all admitted by
the sliding-window limiter, the next send while those 30 timestamps are still
inside the window is rejected and the send path answers it with only a
system:error rate_limited frame to that session, leaving the store untouched
and broadcasting nothing; once the oldest admitted timestamp has left the
window, one further send is admitted. -/
theorem c6_rate_limit_boundary (t0 : Int) (tsRest : List Int) (t31 tAgain : Int)
    (s : RepoState) (userId : Int) (inbound : InboundEnvelope)
    (hlen : (t0 :: tsRest).length = messageRateLimit)
    (_hmono : List.Chain' (fun a b => a ≤ b) (t0 :: tsRest))
    (hspan : ∀ a ∈ t0 :: tsRest, ∀ b ∈ t0 :: tsRest, b - a < messageRateWindow)
    (hwin : ∀ a ∈ t0 :: tsRest, t31 - a < messageRateWindow)
    (hcid : ¬ inbound.conversationId = 0) (hbody : ¬ trimSpace inbound.body = "")
    (hre : t0 + messageRateWindow ≤ tAgain) :
    runAllow [] (t0 :: tsRest) = (List.replicate messageRateLimit true, t0 :: tsRest) ∧
    allowMessage (t0 :: tsRest) t31 = (false, t0 :: tsRest) ∧
    handleSend s userId (t0 :: tsRest) inbound t31 =
      (s, t0 :: tsRest, [HubEffect.sendToSelf ServerFrame.systemErrorRateLimited]) ∧
    (allowMessage (t0 :: tsRest) tAgain).1 = true := by
  have hall : runAllow [] (t0 :: tsRest) =
      (List.replicate messageRateLimit true, t0 :: tsRest) := by
    have := runAllow_all_admitted (t0 :: tsRest) []
      (by rw [hlen]; simp) (by intro a ha; simp at ha) hspan
    rw [hlen] at this
    simpa using this
  have hreject : allowMessage (t0 :: tsRest) t31 = (false, t0 :: tsRest) := by
    unfold allowMessage
    dsimp only
    have hfilt : (t0 :: tsRest).filter (fun x => decide (t31 - messageRateWindow < x)) =
        t0 :: tsRest := by
      apply List.filter_eq_self.mpr
      intro a ha
      have := hwin a ha
      simp only [decide_eq_true_eq]
      omega
    rw [hfilt, if_pos (by rw [hlen])]
  refine ⟨hall, hreject, ?_, ?_⟩
  · unfold handleSend
    rw [if_neg (by simp [hcid, hbody])]
    dsimp only
    rw [hreject]
    simp
  · unfold allowMessage
    dsimp only
    rw [List.filter_cons_of_neg (by simp only [decide_eq_true_eq]; omega)]
    rw [if_neg ?hlt]
    case hlt =>
      have hle := List.length_filter_le (fun x => decide (tAgain - messageRateWindow < x)) tsRest
      have : tsRest.length = 29 := by
        simpa [messageRateLimit] using hlen
      simp only [messageRateLimit]
      omega

/-- Witness applying the C6 theorem to a burst of 31 sends at time 0. -/
theorem c6_rate_limit_boundary_witness :
    runAllow [] ((0 : Int) :: List.replicate 29 (0 : Int)) =
      (List.replicate messageRateLimit true, (0 : Int) :: List.replicate 29 (0 : Int)) ∧
    allowMessage ((0 : Int) :: List.replicate 29 (0 : Int)) 5 =
      (false, (0 : Int) :: List.replicate 29 (0 : Int)) ∧
    handleSend RepoState.init 1 ((0 : Int) :: List.replicate 29 (0 : Int))
      { type := "message:send", conversationId := 1, body := "hi", tempId := "t" } 5 =
      (RepoState.init, (0 : Int) :: List.replicate 29 (0 : Int),
        [HubEffect.sendToSelf ServerFrame.systemErrorRateLimited]) ∧
    (allowMessage ((0 : Int) :: List.replicate 29 (0 : Int)) messageRateWindow).1 = true :=
  c6_rate_limit_boundary 0 (List.replicate 29 0) 5 messageRateWindow RepoState.init 1
    { type := "message:send", conversationId := 1, body := "hi", tempId := "t" }
    (by decide)
    (by
      rw [show ((0 : Int) :: List.replicate 29 (0 : Int)) = List.replicate 30 (0 : Int) from rfl]
      exact List.chain'_replicate_of_rel 30 (le_refl (0 : Int)))
    (by decide) (by decide) (by decide) (by decide) (by decide)

section AssocLemmas

variable {α β : Type} [BEq α]

theorem assocFind_cons (a : α × β) (l : List (α × β)) (k : α) :
    assocFind (a :: l) k = if a.1 == k then some a.2 else assocFind l k := by
  cases hb : (a.1 == k) with
  | true => simp [assocFind, List.find?_cons_of_pos, hb]
  | false =>
    simp only [hb, if_neg Bool.false_ne_true]
    unfold assocFind
    rw [List.find?_cons_of_neg]
    simp [hb]

theorem assocSet_cons (a : α × β) (l : List (α × β)) (k : α) (v : β) :
    assocSet (a :: l) k v = (if a.1 == k then (a.1, v) else a) :: assocSet l k v := rfl

theorem assocDrop_cons (a : α × β) (l : List (α × β)) (k : α) :
    assocDrop (a :: l) k = if a.1 == k then assocDrop l k else a :: assocDrop l k := by
  cases hb : (a.1 == k) with
  | true => simp [assocDrop, List.filter_cons, hb]
  | false => simp [assocDrop, List.filter_cons, hb]

theorem assocFind_set_ne [LawfulBEq α] (l : List (α × β)) (k2 k : α) (v : β) (h : ¬ k = k2) :
    assocFind (assocSet l k2 v) k = assocFind l k := by
  induction l with
  | nil => rfl
  | cons a as ih =>
    rw [assocSet_cons, assocFind_cons, assocFind_cons]
    cases hb : (a.1 == k2) with
    | true =>
      have ha2 : a.1 = k2 := by simpa using hb
      have hk : (a.1 == k) = false := by
        apply beq_eq_false_iff_ne.mpr
        intro hc
        exact h (hc ▸ ha2)
      simp [hk, ih]
    | false => simp [ih]

theorem assocFind_set_self [LawfulBEq α] (l : List (α × β)) (k : α) (v w : β)
    (hw : assocFind l k = some w) : assocFind (assocSet l k v) k = some v := by
  induction l with
  | nil => simp [assocFind] at hw
  | cons a as ih =>
    rw [assocFind_cons] at hw
    rw [assocSet_cons, assocFind_cons]
    cases hb : (a.1 == k) with
    | true => simp [hb]
    | false =>
      rw [hb] at hw
      simp only [if_neg Bool.false_ne_true] at hw
      simp [hb, ih hw]

theorem assocFind_drop_ne [LawfulBEq α] (l : List (α × β)) (k2 k : α) (h : ¬ k = k2) :
    assocFind (assocDrop l k2) k = assocFind l k := by
  induction l with
  | nil => rfl
  | cons a as ih =>
    rw [assocDrop_cons, assocFind_cons]
    cases hb : (a.1 == k2) with
    | true =>
      have ha2 : a.1 = k2 := by simpa using hb
      have hk : (a.1 == k) = false := by
        apply beq_eq_false_iff_ne.mpr
        intro hc
        exact h (hc ▸ ha2)
      simp [hk, ih]
    | false =>
      rw [if_neg Bool.false_ne_true, assocFind_cons]
      simp [ih]

theorem assocFind_drop_self [LawfulBEq α] (l : List (α × β)) (k : α) :
    assocFind (assocDrop l k) k = none := by
  induction l with
  | nil => rfl
  | cons a as ih =>
    rw [assocDrop_cons]
    cases hb : (a.1 == k) with
    | true => simpa using ih
    | false =>
      rw [if_neg Bool.false_ne_true, assocFind_cons]
      simp [hb, ih]

end AssocLemmas

theorem detach_mem_of_ne (l : List (Int × List Nat)) (u2 : Int) (j : Nat) (u : Int)
    (k : Nat) (h : k ∉ (assocFind l u).getD []) :
    k ∉ (assocFind (detachFromUser l u2 j) u).getD [] := by
  unfold detachFromUser
  cases hf : assocFind l u2 with
  | none => exact h
  | some peers =>
    dsimp only
    by_cases he : (peers.erase j).isEmpty = true
    · rw [if_pos he]
      by_cases huu : u = u2
      · subst huu
        rw [assocFind_drop_self]
        simp
      · rw [assocFind_drop_ne _ _ _ huu]
        exact h
    · rw [if_neg he]
      by_cases huu : u = u2
      · subst huu
        rw [assocFind_set_self _ _ _ peers hf]
        simp only [Option.getD_some]
        intro hk
        have hkp : k ∈ peers := List.mem_of_mem_erase hk
        rw [hf] at h
        exact h hkp
      · rw [assocFind_set_ne _ _ _ _ huu]
        exact h

theorem detach_removes (l : List (Int × List Nat)) (u : Int) (k : Nat)
    (hnd : ((assocFind l u).getD []).Nodup) :
    k ∉ (assocFind (detachFromUser l u k) u).getD [] := by
  unfold detachFromUser
  cases hf : assocFind l u with
  | none =>
    simp only [hf]
    simp
  | some peers =>
    dsimp only
    by_cases he : (peers.erase k).isEmpty = true
    · rw [if_pos he, assocFind_drop_self]
      simp
    · rw [if_neg he, assocFind_set_self _ _ _ peers hf]
      simp only [Option.getD_some]
      rw [hf] at hnd
      simp only [Option.getD_some] at hnd
      exact hnd.not_mem_erase

theorem detach_nodup (l : List (Int × List Nat)) (u2 : Int) (j : Nat) (u : Int)
    (hnd : ((assocFind l u).getD []).Nodup) :
    ((assocFind (detachFromUser l u2 j) u).getD []).Nodup := by
  unfold detachFromUser
  cases hf : assocFind l u2 with
  | none => exact hnd
  | some peers =>
    dsimp only
    by_cases he : (peers.erase j).isEmpty = true
    · rw [if_pos he]
      by_cases huu : u = u2
      · subst huu
        rw [assocFind_drop_self]
        simp
      · rw [assocFind_drop_ne _ _ _ huu]
        exact hnd
    · rw [if_neg he]
      by_cases huu : u = u2
      · subst huu
        rw [assocFind_set_self _ _ _ peers hf]
        simp only [Option.getD_some]
        rw [hf] at hnd
        simp only [Option.getD_some] at hnd
        exact hnd.erase j
      · rw [assocFind_set_ne _ _ _ _ huu]
        exact hnd

theorem pushStep_none (js : List Nat) : js.foldl pushStep none = none := by
  induction js with
  | nil => rfl
  | cons j t ih =>
    rw [List.foldl_cons]
    exact ih

theorem pushOne_lookup_ne (st : HubState) (rem : List Nat) (j : Nat)
    (p : HubState × List Nat) (hp : pushOne st rem j = some p) (k2 : Nat)
    (hne : ¬ k2 = j) : lookupClient p.1 k2 = lookupClient st k2 := by
  unfold pushOne at hp
  cases hl : lookupClient st j with
  | none =>
    rw [hl] at hp
    cases hp
    rfl
  | some cs =>
    rw [hl] at hp
    dsimp only at hp
    split at hp
    · cases hp
    · split at hp
      · cases hp
        exact assocFind_set_ne _ _ _ _ hne
      · cases hp
        exact assocFind_set_ne _ _ _ _ hne

theorem pushOne_step_some (st : HubState) (rem : List Nat) (j : Nat)
    (hop : ∀ cs2, lookupClient st j = some cs2 → cs2.closedChan = false) :
    ∃ st2 rem2, pushOne st rem j = some (st2, rem2) ∧
      st2.subscriptions = st.subscriptions ∧
      (∀ k2, ¬ k2 = j → lookupClient st2 k2 = lookupClient st k2) ∧
      (∀ k2, ¬ k2 = j → k2 ∈ rem → k2 ∈ rem2) ∧
      (∀ k2, k2 ∉ rem → k2 ∉ rem2) ∧
      (rem.Nodup → rem2.Nodup) ∧
      (∀ u, ((assocFind st.clientsByUser u).getD []).Nodup →
        ((assocFind st2.clientsByUser u).getD []).Nodup) ∧
      (∀ u k2, k2 ∉ (assocFind st.clientsByUser u).getD [] →
        k2 ∉ (assocFind st2.clientsByUser u).getD []) := by
  unfold pushOne
  cases hl : lookupClient st j with
  | none =>
    exact ⟨st, rem, rfl, rfl, fun _ _ => rfl, fun _ _ h => h, fun _ h => h,
      fun h => h, fun _ h => h, fun _ _ h => h⟩
  | some cs =>
    have hcl : cs.closedChan = false := hop cs hl
    dsimp only
    rw [hcl]
    simp only [Bool.false_eq_true, if_false]
    split
    · refine ⟨_, _, rfl, rfl, ?_, fun _ _ h => h, fun _ h => h, fun h => h,
        fun _ h => h, fun _ _ h => h⟩
      intro k2 hne
      exact assocFind_set_ne _ _ _ _ hne
    · refine ⟨_, _, rfl, rfl, ?_, ?_, ?_, ?_, ?_, ?_⟩
      · intro k2 hne
        exact assocFind_set_ne _ _ _ _ hne
      · intro k2 hne hmem
        exact (List.mem_erase_of_ne hne).mpr hmem
      · intro k2 habs hmem
        exact habs (List.mem_of_mem_erase hmem)
      · intro hnd
        exact hnd.erase j
      · intro u hnd
        exact detach_nodup _ _ _ _ hnd
      · intro u k2 habs
        exact detach_mem_of_ne _ _ _ _ _ habs

theorem foldPush_clean (js : List Nat) : ∀ (st : HubState) (rem : List Nat),
    (∀ j ∈ js, ∀ cs2, lookupClient st j = some cs2 → cs2.closedChan = false) →
    js.Nodup →
    ∃ st2 rem2, js.foldl pushStep (some (st, rem)) = some (st2, rem2) ∧
      st2.subscriptions = st.subscriptions ∧
      (∀ k2, k2 ∉ js → lookupClient st2 k2 = lookupClient st k2) ∧
      (∀ k2, k2 ∉ js → k2 ∈ rem → k2 ∈ rem2) ∧
      (∀ k2, k2 ∉ rem → k2 ∉ rem2) ∧
      (rem.Nodup → rem2.Nodup) ∧
      (∀ u, ((assocFind st.clientsByUser u).getD []).Nodup →
        ((assocFind st2.clientsByUser u).getD []).Nodup) ∧
      (∀ u k2, k2 ∉ (assocFind st.clientsByUser u).getD [] →
        k2 ∉ (assocFind st2.clientsByUser u).getD []) := by
  induction js with
  | nil =>
    intro st rem _ _
    exact ⟨st, rem, rfl, rfl, fun _ _ => rfl, fun _ _ h => h, fun _ h => h,
      fun h => h, fun _ h => h, fun _ _ h => h⟩
  | cons j t ih =>
    intro st rem hop hnd
    obtain ⟨st1, rem1, hsome, hsub1, hlook1, hmem1, habs1, hnd1, hbnd1, hbabs1⟩ :=
      pushOne_step_some st rem j (hop j (List.mem_cons_self j t))
    have hjt : j ∉ t := (List.nodup_cons.mp hnd).1
    have hop1 : ∀ j2 ∈ t, ∀ cs2, lookupClient st1 j2 = some cs2 →
        cs2.closedChan = false := by
      intro j2 hj2 cs2 hcs2
      have hne : ¬ j2 = j := fun hc => hjt (hc ▸ hj2)
      rw [hlook1 j2 hne] at hcs2
      exact hop j2 (List.mem_cons_of_mem _ hj2) cs2 hcs2
    obtain ⟨st2, rem2, hfold2, hsub2, hlook2, hmem2, habs2, hnd2, hbnd2, hbabs2⟩ :=
      ih st1 rem1 hop1 (List.nodup_cons.mp hnd).2
    refine ⟨st2, rem2, ?_, ?_, ?_, ?_, ?_, ?_, ?_, ?_⟩
    · rw [List.foldl_cons]
      rw [show pushStep (some (st, rem)) j = pushOne st rem j from rfl, hsome]
      exact hfold2
    · rw [hsub2, hsub1]
    · intro k2 hk2
      have hne : ¬ k2 = j := fun hc => hk2 (hc ▸ List.mem_cons_self j t)
      have hnt : k2 ∉ t := fun hc => hk2 (List.mem_cons_of_mem _ hc)
      rw [hlook2 k2 hnt, hlook1 k2 hne]
    · intro k2 hk2 hmem
      have hne : ¬ k2 = j := fun hc => hk2 (hc ▸ List.mem_cons_self j t)
      have hnt : k2 ∉ t := fun hc => hk2 (List.mem_cons_of_mem _ hc)
      exact hmem2 k2 hnt (hmem1 k2 hne hmem)
    · intro k2 habs
      exact habs2 k2 (habs1 k2 habs)
    · intro hrem
      exact hnd2 (hnd1 hrem)
    · intro u hnd3
      exact hbnd2 u (hbnd1 u hnd3)
    · intro u k2 habs
      exact hbabs2 u k2 (hbabs1 u k2 habs)

theorem pushOne_drop_step (k : Nat) (cs : ClientSession) (st : HubState)
    (rem : List Nat) (hcs : lookupClient st k = some cs)
    (hopen : cs.closedChan = false)
    (hfull : sendChannelCapacity ≤ cs.queueLen)
    (hrem : rem.Nodup)
    (hbn : ((assocFind st.clientsByUser cs.userId).getD []).Nodup) :
    ∃ st2 rem2, pushOne st rem k = some (st2, rem2) ∧
      lookupClient st2 k = some { cs with closedChan := true } ∧
      k ∉ rem2 ∧ rem2.Nodup ∧
      k ∉ (assocFind st2.clientsByUser cs.userId).getD [] ∧
      st2.subscriptions = st.subscriptions ∧
      (∀ k2, ¬ k2 = k → lookupClient st2 k2 = lookupClient st k2) := by
  unfold pushOne
  rw [hcs]
  dsimp only
  rw [hopen]
  simp only [Bool.false_eq_true, if_false]
  rw [if_neg (by omega)]
  refine ⟨_, _, rfl, ?_, ?_, ?_, ?_, rfl, ?_⟩
  · exact assocFind_set_self _ _ _ cs hcs
  · exact hrem.not_mem_erase
  · exact hrem.erase k
  · exact detach_removes _ _ _ hbn
  · intro k2 hne
    exact assocFind_set_ne _ _ _ _ hne

theorem foldPush_panic (k : Nat) (cs : ClientSession)
    (hclosed : cs.closedChan = true) :
    ∀ (js : List Nat) (st : HubState) (rem : List Nat), k ∈ js →
    lookupClient st k = some cs →
    js.foldl pushStep (some (st, rem)) = none := by
  intro js
  induction js with
  | nil =>
    intro st rem hk
    cases hk
  | cons j t ih =>
    intro st rem hk hcs
    rw [List.foldl_cons]
    by_cases hj : j = k
    · have hnone : pushOne st rem j = none := by
        unfold pushOne
        rw [hj, hcs]
        dsimp only
        simp [hclosed]
      rw [show pushStep (some (st, rem)) j = pushOne st rem j from rfl, hnone]
      exact pushStep_none t
    · have hk2 : k ∈ t := by
        rcases List.mem_cons.mp hk with hc | hc
        · exact absurd hc.symm hj
        · exact hc
      cases hp : pushOne st rem j with
      | none =>
        rw [show pushStep (some (st, rem)) j = pushOne st rem j from rfl, hp]
        exact pushStep_none t
      | some p =>
        rw [show pushStep (some (st, rem)) j = pushOne st rem j from rfl, hp]
        have hlk : lookupClient p.1 k = some cs := by
          rw [pushOne_lookup_ne st rem j p hp k (fun hc => hj hc.symm)]
          exact hcs
        exact ih p.1 p.2 hk2 hlk

theorem pushToConversation_panic (h2 : HubState) (cid2 : Int) (subIds2 : List Nat)
    (k : Nat) (cs : ClientSession)
    (hsubs : assocFind h2.subscriptions cid2 = some subIds2)
    (hk : k ∈ subIds2) (hcs : lookupClient h2 k = some cs)
    (hclosed : cs.closedChan = true) :
    pushToConversation h2 cid2 = none := by
  unfold pushToConversation
  rw [hsubs]
  dsimp only
  rw [foldPush_panic k cs hclosed subIds2 h2 subIds2 hk hcs]

/-- C7 counterexample: in a hub whose single client (key 7) has a full channel
and sits in the subscriber sets of conversations 1 and 2, broadcasting on
conversation 1 closes the channel and drops the client from the subscribers of
1 and from clientsByUser, yet the client is still present in the subscribers
of conversation 2, refuting removal from every subscriber set; the next
broadcast on conversation 2 then panics on the closed channel. -/
theorem c7_counterexample :
    ∃ h2, pushToConversation demoHub 1 = some h2 ∧
      lookupClient h2 7 = some { userId := 42, queueLen := 8, closedChan := true } ∧
      assocFind h2.subscriptions 1 = none ∧
      assocFind h2.clientsByUser 42 = none ∧
      assocFind h2.subscriptions 2 = some [7] ∧
      7 ∈ (assocFind h2.subscriptions 2).getD [] ∧
      pushToConversation h2 2 = none := by
  refine ⟨{ clients := [(7, { userId := 42, queueLen := 8, closedChan := true })], subscriptions := [(2, [7])], clientsByUser := [] }, rfl, rfl, rfl, rfl, rfl, by decide, rfl⟩

/-- C7 (amended): when a broadcast on conversation cid walks subscribers whose
channels are all still open and meets one whose bounded outbound channel
(capacity 8) is full, the hub closes that channel and removes the session from
the subscriber set of cid and from clientsByUser; subscriber sets of other
conversations are left untouched, so the dropped session can remain in them,
and a later broadcast on any conversation still holding it panics on the
closed channel instead of dropping it again. -/
theorem c7_slow_consumer_drop (h : HubState) (cid : Int) (subIds : List Nat)
    (k : Nat) (cs : ClientSession)
    (hsubs : assocFind h.subscriptions cid = some subIds)
    (hnodup : subIds.Nodup)
    (hk : k ∈ subIds)
    (hcs : lookupClient h k = some cs)
    (hfull : sendChannelCapacity ≤ cs.queueLen)
    (hopen : ∀ j ∈ subIds, ∀ cs2, lookupClient h j = some cs2 →
      cs2.closedChan = false)
    (hpeers : ((assocFind h.clientsByUser cs.userId).getD []).Nodup) :
    ∃ h2, pushToConversation h cid = some h2 ∧
      lookupClient h2 k = some { cs with closedChan := true } ∧
      k ∉ (assocFind h2.subscriptions cid).getD [] ∧
      k ∉ (assocFind h2.clientsByUser cs.userId).getD [] ∧
      (∀ cid2, ¬ cid2 = cid →
        assocFind h2.subscriptions cid2 = assocFind h.subscriptions cid2) ∧
      (∀ cid2 subIds2, assocFind h2.subscriptions cid2 = some subIds2 →
        k ∈ subIds2 → pushToConversation h2 cid2 = none) := by
  obtain ⟨pre, post, hsplit⟩ := List.append_of_mem hk
  subst hsplit
  have hkpre : k ∉ pre := by
    intro hin
    exact (List.disjoint_of_nodup_append hnodup) hin (List.mem_cons_self _ _)
  have hkpost : k ∉ post := (List.nodup_cons.mp (hnodup.of_append_right)).1
  have hprend : pre.Nodup := hnodup.of_append_left
  have hpostnd : post.Nodup := (List.nodup_cons.mp (hnodup.of_append_right)).2
  have hdisj := List.disjoint_of_nodup_append hnodup
  obtain ⟨stA, remA, hfoldA, hsubA, hlookA, hmemA, habsA, hndA, hbndA, hbabsA⟩ :=
    foldPush_clean pre h (pre ++ k :: post)
      (fun j hj cs2 hcs2 => hopen j (List.mem_append_left _ hj) cs2 hcs2) hprend
  have hcsA : lookupClient stA k = some cs := by
    rw [hlookA k hkpre]
    exact hcs
  have hopencs : cs.closedChan = false :=
    hopen k (List.mem_append_right _ (List.mem_cons_self _ _)) cs hcs
  obtain ⟨stB, remB, hstepB, hlookB, hkremB, hndB, hbabsB, hsubB, hlookB2⟩ :=
    pushOne_drop_step k cs stA remA hcsA hopencs hfull
      (hndA hnodup) (hbndA cs.userId hpeers)
  have hopenC : ∀ j ∈ post, ∀ cs2, lookupClient stB j = some cs2 →
      cs2.closedChan = false := by
    intro j hj cs2 hcs2
    have hjk : ¬ j = k := fun hc => hkpost (hc ▸ hj)
    have hjpre : j ∉ pre := fun hc => hdisj hc (List.mem_cons_of_mem _ hj)
    rw [hlookB2 j hjk, hlookA j hjpre] at hcs2
    exact hopen j (List.mem_append_right _ (List.mem_cons_of_mem _ hj)) cs2 hcs2
  obtain ⟨stC, remC, hfoldC, hsubC, hlookC, hmemC, habsC, hndC, hbndC, hbabsC⟩ :=
    foldPush_clean post stB remB hopenC hpostnd
  have hlookCk : lookupClient stC k = some { cs with closedChan := true } := by
    rw [hlookC k hkpost]
    exact hlookB
  have hkremC : k ∉ remC := habsC k hkremB
  have hbabsCk : k ∉ (assocFind stC.clientsByUser cs.userId).getD [] :=
    hbabsC cs.userId k hbabsB
  have hsubsC : stC.subscriptions = h.subscriptions := by
    rw [hsubC, hsubB, hsubA]
  unfold pushToConversation
  rw [hsubs]
  dsimp only
  rw [List.foldl_append, List.foldl_cons, hfoldA]
  rw [show pushStep (some (stA, remA)) k = pushOne stA remA k from rfl, hstepB]
  rw [hfoldC]
  dsimp only
  by_cases hemp : remC.isEmpty = true
  · rw [if_pos hemp]
    refine ⟨_, rfl, ?_, ?_, ?_, ?_, ?_⟩
    · exact hlookCk
    · show k ∉ (assocFind (assocDrop stC.subscriptions cid) cid).getD []
      rw [assocFind_drop_self]
      simp
    · exact hbabsCk
    · intro cid2 hne
      show assocFind (assocDrop stC.subscriptions cid) cid2 =
        assocFind h.subscriptions cid2
      rw [assocFind_drop_ne _ _ _ hne, hsubsC]
    · intro cid2 subIds2 hs2 hk2
      exact pushToConversation_panic _ cid2 subIds2 k { cs with closedChan := true }
        hs2 hk2 hlookCk rfl
  · rw [if_neg hemp]
    refine ⟨_, rfl, ?_, ?_, ?_, ?_, ?_⟩
    · exact hlookCk
    · show k ∉ (assocFind (assocSet stC.subscriptions cid remC) cid).getD []
      have hfind : assocFind stC.subscriptions cid = some (pre ++ k :: post) := by
        rw [hsubsC]
        exact hsubs
      rw [assocFind_set_self _ _ _ (pre ++ k :: post) hfind]
      simpa using hkremC
    · exact hbabsCk
    · intro cid2 hne
      show assocFind (assocSet stC.subscriptions cid remC) cid2 =
        assocFind h.subscriptions cid2
      rw [assocFind_set_ne _ _ _ _ hne, hsubsC]
    · intro cid2 subIds2 hs2 hk2
      exact pushToConversation_panic _ cid2 subIds2 k { cs with closedChan := true }
        hs2 hk2 hlookCk rfl

/-- Witness applying the C7 amended theorem to the demo hub. -/
theorem c7_slow_consumer_drop_witness :
    ∃ h2, pushToConversation demoHub 1 = some h2 ∧
      lookupClient h2 7 =
        some { userId := 42, queueLen := 8, closedChan := true } ∧
      7 ∉ (assocFind h2.subscriptions 1).getD [] ∧
      7 ∉ (assocFind h2.clientsByUser 42).getD [] ∧
      (∀ cid2, ¬ cid2 = 1 →
        assocFind h2.subscriptions cid2 = assocFind demoHub.subscriptions cid2) ∧
      (∀ cid2 subIds2, assocFind h2.subscriptions cid2 = some subIds2 →
        7 ∈ subIds2 → pushToConversation h2 cid2 = none) :=
  c7_slow_consumer_drop demoHub 1 [7] 7
    { userId := 42, queueLen := 8, closedChan := false }
    (by rfl) (by decide) (by decide) (by rfl) (by decide)
    (by
      intro j hj cs2 hcs2
      rw [List.mem_singleton.mp hj] at hcs2
      have h7 : lookupClient demoHub 7 =
          some { userId := 42, queueLen := 8, closedChan := false } := rfl
      rw [h7] at hcs2
      rw [← Option.some.inj hcs2])
    (by decide)

theorem b64Char_ne_dot (n : Nat) : b64Char n ≠ '.' := by
  unfold b64Char
  rw [List.getD_eq_getD_get?]
  rcases h : b64Alphabet.get? n with _ | c
  · decide
  · have hc : c ∈ b64Alphabet := List.get?_mem h
    simp only [Option.getD_some]
    intro hdot
    rw [hdot] at hc
    exact absurd hc (by decide)

theorem dot_not_mem_b64encode : ∀ l : List Nat, '.' ∉ b64encode l
  | [] => by simp [b64encode]
  | [b0] => by
    intro hmem
    simp only [b64encode, List.mem_cons, List.not_mem_nil, or_false] at hmem
    rcases hmem with h | h <;> exact b64Char_ne_dot _ h.symm
  | [b0, b1] => by
    intro hmem
    simp only [b64encode, List.mem_cons, List.not_mem_nil, or_false] at hmem
    rcases hmem with h | h | h <;> exact b64Char_ne_dot _ h.symm
  | b0 :: b1 :: b2 :: rest => by
    intro hmem
    simp only [b64encode, List.mem_cons] at hmem
    rcases hmem with h | h | h | h | h
    · exact b64Char_ne_dot _ h.symm
    · exact b64Char_ne_dot _ h.symm
    · exact b64Char_ne_dot _ h.symm
    · exact b64Char_ne_dot _ h.symm
    · exact dot_not_mem_b64encode rest h

theorem splitDot_no_dot (s : List Char) (hs : '.' ∉ s) : splitDot s = [s] := by
  induction s with
  | nil => rfl
  | cons c cs ih =>
    have hc : (c == '.') = false := by
      apply beq_eq_false_iff_ne.mpr
      intro he
      exact hs (he ▸ List.mem_cons_self _ _)
    rw [splitDot]
    rw [hc]
    rw [ih (fun hmem => hs (List.mem_cons_of_mem _ hmem))]
    rfl

theorem splitDot_append (p s : List Char) (hp : '.' ∉ p) (hs : '.' ∉ s) :
    splitDot (p ++ '.' :: s) = [p, s] := by
  induction p with
  | nil =>
    rw [List.nil_append, splitDot]
    rw [show (('.' : Char) == '.') = true from by decide]
    rw [splitDot_no_dot s hs]
    rfl
  | cons c cp ih =>
    have hc : (c == '.') = false := by
      apply beq_eq_false_iff_ne.mpr
      intro he
      exact hp (he ▸ List.mem_cons_self _ _)
    rw [List.cons_append, splitDot]
    rw [hc]
    rw [ih (fun hmem => hp (List.mem_cons_of_mem _ hmem))]
    rfl

theorem b64Val_b64Char : ∀ n, n < 64 → b64Val (b64Char n) = some n := by decide

theorem b64_roundtrip : ∀ l : List Nat, (∀ b ∈ l, b < 256) →
    b64decode (b64encode l) = some l
  | [], _ => rfl
  | [b0], h => by
    have hb0 : b0 < 256 := h b0 (by simp)
    show b64decode [b64Char (b0 / 4), b64Char (b0 % 4 * 16)] = some [b0]
    rw [b64decode]
    rw [b64Val_b64Char _ (by omega), b64Val_b64Char _ (by omega)]
    dsimp only
    simp only [Option.some.injEq, List.cons.injEq, and_true]
    omega
  | [b0, b1], h => by
    have hb0 : b0 < 256 := h b0 (by simp)
    have hb1 : b1 < 256 := h b1 (by simp)
    show b64decode [b64Char (b0 / 4), b64Char (b0 % 4 * 16 + b1 / 16),
      b64Char (b1 % 16 * 4)] = some [b0, b1]
    rw [b64decode]
    rw [b64Val_b64Char _ (by omega), b64Val_b64Char _ (by omega),
      b64Val_b64Char _ (by omega)]
    dsimp only
    simp only [Option.some.injEq, List.cons.injEq, and_true]
    omega
  | b0 :: b1 :: b2 :: rest, h => by
    have hb0 : b0 < 256 := h b0 (by simp)
    have hb1 : b1 < 256 := h b1 (by simp)
    have hb2 : b2 < 256 := h b2 (by simp)
    have ih := b64_roundtrip rest (fun b hb => h b (by simp [hb]))
    show b64decode (b64Char (b0 / 4) :: b64Char (b0 % 4 * 16 + b1 / 16) ::
      b64Char (b1 % 16 * 4 + b2 / 64) :: b64Char (b2 % 64) :: b64encode rest) =
      some (b0 :: b1 :: b2 :: rest)
    rw [b64decode]
    rw [b64Val_b64Char _ (by omega), b64Val_b64Char _ (by omega),
      b64Val_b64Char _ (by omega), b64Val_b64Char _ (by omega), ih]
    dsimp only
    simp only [Option.some.injEq, List.cons.injEq, and_true]
    omega

/-- C9: a token issued for (userId, email) at time now with lifetime ttl
verifies successfully at every time up to and including its expires_at,
returning exactly the issued claims (user_id, email, issued_at, expires_at),
and fails with the expired-token error at every time strictly after
expires_at: zero clock-skew tolerance.  The two hypotheses state the
round-trip property and byte-validity of the JSON claims codec, which
encoding/json provides for sessionClaims. -/
theorem c9_token_roundtrip_expiry (env : TokenEnv) (ttl userId : Int) (email : String)
    (now t : Int)
    (hmarshal : env.unmarshalClaims (env.marshalClaims
        { userId := userId, email := email, issuedAt := now, expiresAt := now + ttl }) =
      some { userId := userId, email := email, issuedAt := now, expiresAt := now + ttl })
    (hbytes : ∀ b ∈ env.marshalClaims
        { userId := userId, email := email, issuedAt := now, expiresAt := now + ttl },
      b < 256) :
    (t ≤ now + ttl → verify env (issue env ttl userId email now).1 t =
      Except.ok (issue env ttl userId email now).2) ∧
    (now + ttl < t → verify env (issue env ttl userId email now).1 t =
      Except.error TokenError.expiredToken) := by
  have hver : ∀ tt : Int,
      verify env (issue env ttl userId email now).1 tt =
        (if (now + ttl) < tt then Except.error TokenError.expiredToken
         else Except.ok { userId := userId, email := email, issuedAt := now, expiresAt := now + ttl }) := by
    intro tt
    show verify env
      (b64encode (env.marshalClaims { userId := userId, email := email, issuedAt := now, expiresAt := now + ttl }) ++ '.' ::
        signPart env (b64encode (env.marshalClaims { userId := userId, email := email, issuedAt := now, expiresAt := now + ttl }))) tt = _
    unfold verify
    rw [splitDot_append _ _ (dot_not_mem_b64encode _)
      (by unfold signPart; exact dot_not_mem_b64encode _)]
    dsimp only
    rw [show (signPart env (b64encode (env.marshalClaims { userId := userId, email := email, issuedAt := now, expiresAt := now + ttl })) ==
      signPart env (b64encode (env.marshalClaims { userId := userId, email := email, issuedAt := now, expiresAt := now + ttl }))) = true from beq_self_eq_true _]
    rw [b64_roundtrip _ hbytes]
    dsimp only
    rw [hmarshal]
    simp
  constructor
  · intro ht
    rw [hver t, if_neg (by omega)]
    rfl
  · intro ht
    rw [hver t, if_pos ht]

/-- Witness applying the C9 theorem to a concrete codec and token. -/
theorem c9_token_roundtrip_expiry_witness :
    verify demoTokenEnv (issue demoTokenEnv defaultSessionTTL 1 "ab" 0).1 5 =
      Except.ok (issue demoTokenEnv defaultSessionTTL 1 "ab" 0).2 ∧
    verify demoTokenEnv (issue demoTokenEnv defaultSessionTTL 1 "ab" 0).1
      (defaultSessionTTL + 1) = Except.error TokenError.expiredToken :=
  ⟨(c9_token_roundtrip_expiry demoTokenEnv defaultSessionTTL 1 "ab" 0 5
      (by rfl) (by decide)).1 (by decide),
   (c9_token_roundtrip_expiry demoTokenEnv defaultSessionTTL 1 "ab" 0
      (defaultSessionTTL + 1) (by rfl) (by decide)).2 (by decide)⟩

theorem find?_key_unique {γ : Type} (key : γ → Int) :
    ∀ l : List γ, l.Pairwise (fun a b => key a < key b) → ∀ a ∈ l,
    l.find? (fun x => key x == key a) = some a := by
  intro l
  induction l with
  | nil =>
    intro _ a ha
    cases ha
  | cons x xs ih =>
    intro hsort a ha
    rcases List.mem_cons.mp ha with rfl | hmem
    · rw [List.find?_cons_of_pos _ (by simp)]
    · have hlt : key x < key a := (List.pairwise_cons.mp hsort).1 a hmem
      rw [List.find?_cons_of_neg _ (by simp only [beq_iff_eq]; omega)]
      exact ih (List.pairwise_cons.mp hsort).2 a hmem

theorem findConv_unique :
    ∀ l : List Conversation,
    l.Pairwise (fun a b => ∀ k, a.eventId = some k → b.eventId ≠ some k) →
    ∀ c ∈ l, ∀ k, c.eventId = some k →
    l.find? (fun x => x.eventId == some k) = some c := by
  intro l
  induction l with
  | nil =>
    intro _ c hc
    cases hc
  | cons x xs ih =>
    intro hpw c hc k hk
    rcases List.mem_cons.mp hc with rfl | hmem
    · rw [List.find?_cons_of_pos _ (by simp [hk])]
    · have hx : x.eventId ≠ some k := by
        intro hxk
        exact ((List.pairwise_cons.mp hpw).1 c hmem k hxk) hk
      rw [List.find?_cons_of_neg _ (by simp [hx])]
      exact ih (List.pairwise_cons.mp hpw).2 c hmem k hk

theorem pairwise_append_singleton {γ : Type} (R : γ → γ → Prop) (l : List γ) (x : γ)
    (h : l.Pairwise R) (hx : ∀ a ∈ l, R a x) : (l ++ [x]).Pairwise R := by
  rw [List.pairwise_append]
  refine ⟨h, List.pairwise_singleton _ _, ?_⟩
  intro a ha b hb
  rw [List.mem_singleton.mp hb]
  exact hx a ha

theorem insertMemberRow_fields (s : RepoState) (cid uid : Int) (role : String)
    (now : Int) :
    (insertMemberRow s cid uid role now).events = s.events ∧
    (insertMemberRow s cid uid role now).conversations = s.conversations ∧
    (insertMemberRow s cid uid role now).messages = s.messages ∧
    (insertMemberRow s cid uid role now).readStates = s.readStates ∧
    (insertMemberRow s cid uid role now).joinRequests = s.joinRequests ∧
    (insertMemberRow s cid uid role now).nextEventId = s.nextEventId ∧
    (insertMemberRow s cid uid role now).nextConversationId = s.nextConversationId ∧
    (insertMemberRow s cid uid role now).nextMessageId = s.nextMessageId ∧
    (insertMemberRow s cid uid role now).nextJoinRequestId = s.nextJoinRequestId ∧
    (insertMemberRow s cid uid role now).clock = s.clock := by
  unfold insertMemberRow
  split
  · exact ⟨rfl, rfl, rfl, rfl, rfl, rfl, rfl, rfl, rfl, rfl⟩
  · exact ⟨rfl, rfl, rfl, rfl, rfl, rfl, rfl, rfl, rfl, rfl⟩

theorem insertMemberRow_members_sub (s : RepoState) (cid uid : Int) (role : String)
    (now : Int) (m : ConversationMember) (hm : m ∈ s.members) :
    m ∈ (insertMemberRow s cid uid role now).members := by
  unfold insertMemberRow
  split
  · exact hm
  · exact List.mem_append_left _ hm

theorem insertMemberRow_members_cases (s : RepoState) (cid uid : Int) (role : String)
    (now : Int) (m : ConversationMember)
    (hm : m ∈ (insertMemberRow s cid uid role now).members) :
    m ∈ s.members ∨ (m.conversationId = cid ∧ m.userId = uid ∧ m.role = role) := by
  unfold insertMemberRow at hm
  split at hm
  · exact Or.inl hm
  · rcases List.mem_append.mp hm with h | h
    · exact Or.inl h
    · right
      rw [List.mem_singleton.mp h]
      exact ⟨rfl, rfl, rfl⟩

theorem insertMemberRow_unique (s : RepoState) (cid uid : Int) (role : String)
    (now : Int)
    (h : s.members.Pairwise (fun a b =>
      ¬(a.conversationId = b.conversationId ∧ a.userId = b.userId))) :
    (insertMemberRow s cid uid role now).members.Pairwise (fun a b =>
      ¬(a.conversationId = b.conversationId ∧ a.userId = b.userId)) := by
  unfold insertMemberRow
  split
  · exact h
  · rename_i hany
    apply pairwise_append_singleton _ _ _ h
    intro a ha hcontra
    apply hany
    apply List.any_eq_true.mpr
    exact ⟨a, ha, by simp [hcontra.1, hcontra.2]⟩

theorem insertMemberRow_fresh (s : RepoState) (cid uid : Int) (role : String)
    (now : Int)
    (h : ∀ m ∈ s.members, ¬(m.conversationId = cid ∧ m.userId = uid)) :
    (insertMemberRow s cid uid role now).members = s.members ++
      [{ conversationId := cid, userId := uid, joinedAt := now, role := role }] := by
  unfold insertMemberRow
  rw [if_neg]
  intro hany
  rcases List.any_eq_true.mp hany with ⟨m, hm, hp⟩
  have hp2 : m.conversationId = cid ∧ m.userId = uid := by
    simpa using hp
  exact h m hm hp2

theorem insertMemberRow_bounded (s : RepoState) (cid uid : Int) (role : String)
    (now : Int) (n : Int)
    (h : ∀ m ∈ s.members, m.conversationId < n) (hcid : cid < n) :
    ∀ m ∈ (insertMemberRow s cid uid role now).members, m.conversationId < n := by
  intro m hm
  rcases insertMemberRow_members_cases s cid uid role now m hm with h2 | h2
  · exact h m h2
  · rw [h2.1]
    exact hcid

theorem insertMemberRow_fresh_state (s : RepoState) (cid uid : Int) (role : String)
    (now : Int)
    (h : ∀ m ∈ s.members, ¬(m.conversationId = cid ∧ m.userId = uid)) :
    insertMemberRow s cid uid role now = { s with members := s.members ++
      [{ conversationId := cid, userId := uid, joinedAt := now, role := role }] } := by
  unfold insertMemberRow
  rw [if_neg]
  intro hany
  rcases List.any_eq_true.mp hany with ⟨m, hm, hp⟩
  exact h m hm (by simpa using hp)

theorem createEvent_snd (s : RepoState) (p : CreateEventParams) (now : Int)
    (hb : ∀ m ∈ s.members, m.conversationId < s.nextConversationId) :
    (createEvent s p now).2 = { s with
      events := s.events ++ [{ id := s.nextEventId, userId := p.userId, title := p.title, location := p.location, time := p.time, description := p.description, gender := p.gender, minAge := p.minAge, maxAge := p.maxAge, dateLabel := p.dateLabel, createdAt := now }],
      conversations := s.conversations ++ [{ id := s.nextConversationId, title := if trimSpace p.title == "" then none else some p.title, createdBy := p.userId, eventId := some s.nextEventId, createdAt := now }],
      members := s.members ++ [{ conversationId := s.nextConversationId, userId := p.userId, joinedAt := now, role := "owner" }],
      nextEventId := s.nextEventId + 1,
      nextConversationId := s.nextConversationId + 1,
      clock := now } := by
  unfold createEvent
  dsimp only
  rw [insertMemberRow_fresh_state]
  intro m hm hc
  have := hb m hm
  omega

theorem inv_createEvent (s : RepoState) (p : CreateEventParams) (now : Int)
    (inv : RepoInv s) (hnow : s.clock ≤ now) : RepoInv (createEvent s p now).2 := by
  rw [createEvent_snd s p now inv.membersConvBounded]
  constructor
  · exact pairwise_append_singleton _ _ _ inv.eventsSorted
      (fun a ha => inv.eventsBounded a ha)
  · intro e he
    rcases List.mem_append.mp he with h | h
    · have := inv.eventsBounded e h
      dsimp only
      omega
    · rw [List.mem_singleton.mp h]
      dsimp only
      omega
  · exact pairwise_append_singleton _ _ _ inv.convsSorted
      (fun a ha => inv.convsBounded a ha)
  · intro c hc
    rcases List.mem_append.mp hc with h | h
    · have := inv.convsBounded c h
      dsimp only
      omega
    · rw [List.mem_singleton.mp h]
      dsimp only
      omega
  · exact inv.msgsSorted
  · intro m hm
    have := inv.msgsBounded m hm
    dsimp only
    omega
  · exact inv.reqsSorted
  · exact inv.reqsBounded
  · intro r hr
    have := inv.reqsEventBounded r hr
    dsimp only
    omega
  · intro m hm
    rcases List.mem_append.mp hm with h | h
    · have := inv.membersConvBounded m h
      dsimp only
      omega
    · rw [List.mem_singleton.mp h]
      dsimp only
      omega
  · apply pairwise_append_singleton _ _ _ inv.memberUnique
    intro a ha hcontra
    have := inv.membersConvBounded a ha
    rw [hcontra.1] at this
    dsimp only at this
    omega
  · apply pairwise_append_singleton _ _ _ inv.eventConvUnique
    intro a ha k hk
    have := inv.convEventBounded a ha k hk
    dsimp only
    intro hceq
    have : s.nextEventId = k := by
      simpa using hceq
    omega
  · intro c hc k hk
    rcases List.mem_append.mp hc with h | h
    · have := inv.convEventBounded c h k hk
      dsimp only
      omega
    · rw [List.mem_singleton.mp h] at hk
      dsimp only at hk ⊢
      have : k = s.nextEventId := by
        simpa using hk.symm
      omega
  · intro e he
    rcases List.mem_append.mp he with h | h
    · obtain ⟨c, hc, hce, m, hm, hmc, hmu, hmr⟩ := inv.hostOwner e h
      exact ⟨c, List.mem_append_left _ hc, hce, m, List.mem_append_left _ hm,
        hmc, hmu, hmr⟩
    · rw [List.mem_singleton.mp h]
      refine ⟨_, List.mem_append_right _ (List.mem_singleton_self _), rfl,
        _, List.mem_append_right _ (List.mem_singleton_self _), rfl, rfl, rfl⟩
  · intro r hr hpending
    obtain ⟨hhost, hmem⟩ := inv.pendingFree r hr hpending
    constructor
    · intro e he heq
      rcases List.mem_append.mp he with h | h
      · exact hhost e h heq
      · rw [List.mem_singleton.mp h] at heq
        dsimp only at heq
        have := inv.reqsEventBounded r hr
        omega
    · intro c hc hceq m hm hcontra
      rcases List.mem_append.mp hc with h | h
      · rcases List.mem_append.mp hm with h2 | h2
        · exact hmem c h hceq m h2 hcontra
        · rw [List.mem_singleton.mp h2] at hcontra
          dsimp only at hcontra
          have := inv.convsBounded c h
          rw [← hcontra.1] at this
          omega
      · rw [List.mem_singleton.mp h] at hceq
        dsimp only at hceq
        have hk : s.nextEventId = r.eventId := by
          simpa using hceq
        have := inv.reqsEventBounded r hr
        omega
  · exact inv.pendingUnique

theorem key_unique_of_pairwise {γ : Type} (key : γ → Int) :
    ∀ l : List γ, l.Pairwise (fun a b => key a < key b) →
    ∀ a ∈ l, ∀ b ∈ l, key a = key b → a = b := by
  intro l
  induction l with
  | nil =>
    intro _ a ha
    cases ha
  | cons x xs ih =>
    intro hpw a ha b hb heq
    have hx := (List.pairwise_cons.mp hpw).1
    have ht := (List.pairwise_cons.mp hpw).2
    rcases List.mem_cons.mp ha with rfl | ha2
    · rcases List.mem_cons.mp hb with rfl | hb2
      · rfl
      · have := hx b hb2
        omega
    · rcases List.mem_cons.mp hb with rfl | hb2
      · have := hx a ha2
        omega
      · exact ih ht a ha2 b hb2 heq

theorem inv_events_map (s : RepoState) (f : Event → Event)
    (hid : ∀ e, (f e).id = e.id) (huid : ∀ e, (f e).userId = e.userId)
    (inv : RepoInv s) : RepoInv { s with events := s.events.map f } := by
  constructor
  · exact List.Pairwise.map f
      (fun a b hab => by rw [hid, hid]; exact hab) inv.eventsSorted
  · intro e he
    obtain ⟨x, hx, rfl⟩ := List.mem_map.mp he
    rw [hid]
    exact inv.eventsBounded x hx
  · exact inv.convsSorted
  · exact inv.convsBounded
  · exact inv.msgsSorted
  · exact inv.msgsBounded
  · exact inv.reqsSorted
  · exact inv.reqsBounded
  · exact inv.reqsEventBounded
  · exact inv.membersConvBounded
  · exact inv.memberUnique
  · exact inv.eventConvUnique
  · exact inv.convEventBounded
  · intro e he
    obtain ⟨x, hx, rfl⟩ := List.mem_map.mp he
    rw [hid, huid]
    exact inv.hostOwner x hx
  · intro r hr hpending
    obtain ⟨hhost, hmem⟩ := inv.pendingFree r hr hpending
    refine ⟨?_, hmem⟩
    intro e he heq
    obtain ⟨x, hx, rfl⟩ := List.mem_map.mp he
    rw [huid]
    rw [hid] at heq
    exact hhost x hx heq
  · exact inv.pendingUnique

theorem inv_updateEvent (s : RepoState) (id userId : Int) (p : UpdateEventParams)
    (inv : RepoInv s) : RepoInv (applyExcept s (updateEvent s id userId p)) := by
  unfold updateEvent
  split
  · simp only [applyExcept]
    apply inv_events_map _ _ ?_ ?_ inv
    · intro e
      split
      · rfl
      · rfl
    · intro e
      split
      · rfl
      · rfl
  · simp only [applyExcept]
    exact inv

theorem inv_deleteEvent (s : RepoState) (id userId : Int)
    (inv : RepoInv s) : RepoInv (applyExcept s (deleteEvent s id userId)) := by
  unfold deleteEvent
  split
  · rename_i hany
    obtain ⟨e0, he0, hp0⟩ := List.any_eq_true.mp hany
    have hp0b : e0.id = id ∧ e0.userId = userId := by simpa using hp0
    simp only [applyExcept]
    constructor
    · exact inv.eventsSorted.filter _
    · intro e he
      exact inv.eventsBounded e (List.mem_of_mem_filter he)
    · exact inv.convsSorted.filter _
    · intro c hc
      exact inv.convsBounded c (List.mem_of_mem_filter hc)
    · exact inv.msgsSorted.filter _
    · intro m hm
      exact inv.msgsBounded m (List.mem_of_mem_filter hm)
    · exact inv.reqsSorted.filter _
    · intro r hr
      exact inv.reqsBounded r (List.mem_of_mem_filter hr)
    · intro r hr
      exact inv.reqsEventBounded r (List.mem_of_mem_filter hr)
    · intro m hm
      exact inv.membersConvBounded m (List.mem_of_mem_filter hm)
    · exact inv.memberUnique.filter _
    · exact inv.eventConvUnique.filter _
    · intro c hc
      exact inv.convEventBounded c (List.mem_of_mem_filter hc)
    · intro e he
      have hemem := List.mem_of_mem_filter he
      have hepred := List.of_mem_filter he
      have heid : ¬ e.id = id := by
        intro heq
        have he2 : e = e0 := key_unique_of_pairwise (fun x => x.id) s.events
          inv.eventsSorted e hemem e0 he0
          (by show e.id = e0.id; omega)
        rw [he2, hp0] at hepred
        simp at hepred
      obtain ⟨c, hc, hce, m, hm, hmc, hmu, hmr⟩ := inv.hostOwner e hemem
      have hckeep : ¬(c.eventId == some id) = true := by
        simp only [beq_iff_eq]
        rw [hce]
        intro hcontra
        exact heid (by simpa using hcontra)
      have hcmem : c ∈ s.conversations.filter (fun c2 => !(c2.eventId == some id)) := by
        apply List.mem_filter.mpr
        exact ⟨hc, by simp [hckeep]⟩
      refine ⟨c, hcmem, hce, m, ?_, hmc, hmu, hmr⟩
      apply List.mem_filter.mpr
      refine ⟨hm, ?_⟩
      simp only [Bool.not_eq_true']
      apply Bool.eq_false_iff.mpr
      intro htrue
      have hin : m.conversationId ∈ (s.conversations.filter
          (fun c2 => c2.eventId == some id)).map (fun c2 => c2.id) :=
        List.elem_iff.mp htrue
      obtain ⟨c2, hc2f, hc2id⟩ := List.mem_map.mp hin
      have hc2id2 : c2.id = m.conversationId := hc2id
      have hc2mem := List.mem_of_mem_filter hc2f
      have hc2pred : c2.eventId = some id := by
        simpa using List.of_mem_filter hc2f
      have hc2c : c2 = c := key_unique_of_pairwise (fun x => x.id) s.conversations
        inv.convsSorted c2 hc2mem c hc
        (by show c2.id = c.id; omega)
      rw [hc2c] at hc2pred
      exact hckeep (by simp [hc2pred])
    · intro r hr hpending
      obtain ⟨hhost, hmem⟩ := inv.pendingFree r (List.mem_of_mem_filter hr) hpending
      constructor
      · intro e he heq
        exact hhost e (List.mem_of_mem_filter he) heq
      · intro c hc hceq m hm hcontra
        exact hmem c (List.mem_of_mem_filter hc) hceq m (List.mem_of_mem_filter hm) hcontra
    · exact inv.pendingUnique.filter _
  · simp only [applyExcept]
    exact inv

theorem inv_insertMemberRow (t : RepoState) (cid uid : Int) (role : String) (now : Int)
    (inv : RepoInv t) (hcid : cid < t.nextConversationId)
    (hnoevent : ∀ c ∈ t.conversations, ∀ k, c.eventId = some k → ¬ c.id = cid) :
    RepoInv (insertMemberRow t cid uid role now) := by
  unfold insertMemberRow
  split
  · exact inv
  · rename_i hany
    constructor
    · exact inv.eventsSorted
    · exact inv.eventsBounded
    · exact inv.convsSorted
    · exact inv.convsBounded
    · exact inv.msgsSorted
    · exact inv.msgsBounded
    · exact inv.reqsSorted
    · exact inv.reqsBounded
    · exact inv.reqsEventBounded
    · intro m hm
      rcases List.mem_append.mp hm with h | h
      · exact inv.membersConvBounded m h
      · rw [List.mem_singleton.mp h]
        exact hcid
    · apply pairwise_append_singleton _ _ _ inv.memberUnique
      intro a ha hcontra
      apply hany
      apply List.any_eq_true.mpr
      exact ⟨a, ha, by simp [hcontra.1, hcontra.2]⟩
    · exact inv.eventConvUnique
    · exact inv.convEventBounded
    · intro e he
      obtain ⟨c, hc, hce, m, hm, hmc, hmu, hmr⟩ := inv.hostOwner e he
      exact ⟨c, hc, hce, m, List.mem_append_left _ hm, hmc, hmu, hmr⟩
    · intro r hr hpending
      obtain ⟨hhost, hmem⟩ := inv.pendingFree r hr hpending
      refine ⟨hhost, ?_⟩
      intro c hc hceq m hm hcontra
      rcases List.mem_append.mp hm with h | h
      · exact hmem c hc hceq m h hcontra
      · rw [List.mem_singleton.mp h] at hcontra
        dsimp only at hcontra
        exact hnoevent c hc r.eventId hceq hcontra.1.symm
    · exact inv.pendingUnique

theorem inv_fold_insert (roleOf : Int → String) (now cid : Int) (ids : List Int) :
    ∀ t : RepoState, RepoInv t → cid < t.nextConversationId →
    (∀ c ∈ t.conversations, ∀ k, c.eventId = some k → ¬ c.id = cid) →
    RepoInv (ids.foldl (fun acc mid => insertMemberRow acc cid mid (roleOf mid) now) t) := by
  induction ids with
  | nil => exact fun t inv _ _ => inv
  | cons i is ih =>
    intro t inv hcid hnoev
    simp only [List.foldl_cons]
    apply ih
    · exact inv_insertMemberRow t cid i (roleOf i) now inv hcid hnoev
    · rw [(insertMemberRow_fields t cid i (roleOf i) now).2.2.2.2.2.2.1]
      exact hcid
    · rw [(insertMemberRow_fields t cid i (roleOf i) now).2.1]
      exact hnoev

theorem inv_createConversation (s : RepoState) (title : Option String)
    (createdBy : Int) (memberIds : List Int) (now : Int)
    (inv : RepoInv s) (hnow : s.clock ≤ now) :
    RepoInv (createConversation s title createdBy memberIds none now).2 := by
  unfold createConversation
  dsimp only
  have hs1 : RepoInv { s with
      conversations := s.conversations ++ [{ id := s.nextConversationId, title := title, createdBy := createdBy, eventId := none, createdAt := now }],
      nextConversationId := s.nextConversationId + 1, clock := now } := by
    constructor
    · exact inv.eventsSorted
    · exact inv.eventsBounded
    · exact pairwise_append_singleton _ _ _ inv.convsSorted
        (fun a ha => inv.convsBounded a ha)
    · intro c hc
      rcases List.mem_append.mp hc with h | h
      · have := inv.convsBounded c h
        dsimp only
        omega
      · rw [List.mem_singleton.mp h]
        dsimp only
        omega
    · exact inv.msgsSorted
    · intro m hm
      have := inv.msgsBounded m hm
      dsimp only
      omega
    · exact inv.reqsSorted
    · exact inv.reqsBounded
    · exact inv.reqsEventBounded
    · intro m hm
      have := inv.membersConvBounded m hm
      dsimp only
      omega
    · exact inv.memberUnique
    · apply pairwise_append_singleton _ _ _ inv.eventConvUnique
      intro a ha k hk
      simp
    · intro c hc k hk
      rcases List.mem_append.mp hc with h | h
      · exact inv.convEventBounded c h k hk
      · rw [List.mem_singleton.mp h] at hk
        simp at hk
    · intro e he
      obtain ⟨c, hc, hce, m, hm, hmc, hmu, hmr⟩ := inv.hostOwner e he
      exact ⟨c, List.mem_append_left _ hc, hce, m, hm, hmc, hmu, hmr⟩
    · intro r hr hpending
      obtain ⟨hhost, hmem⟩ := inv.pendingFree r hr hpending
      refine ⟨hhost, ?_⟩
      intro c hc hceq m hm hcontra
      rcases List.mem_append.mp hc with h | h
      · exact hmem c h hceq m hm hcontra
      · rw [List.mem_singleton.mp h] at hceq
        simp at hceq
    · exact inv.pendingUnique
  apply inv_fold_insert (fun mid => if mid == createdBy then "owner" else "member")
    now s.nextConversationId _ _ hs1
  · dsimp only
    omega
  · intro c hc k hk
    dsimp only at hc
    rcases List.mem_append.mp hc with h | h
    · have := inv.convsBounded c h
      omega
    · rw [List.mem_singleton.mp h] at hk
      simp at hk

theorem inv_createMessage (s : RepoState) (p : CreateMessageParams) (now : Int)
    (inv : RepoInv s) (hnow : s.clock ≤ now) :
    RepoInv (createMessage s p now).2 := by
  unfold createMessage
  dsimp only
  constructor
  · exact inv.eventsSorted
  · exact inv.eventsBounded
  · exact inv.convsSorted
  · exact inv.convsBounded
  · apply pairwise_append_singleton _ _ _ inv.msgsSorted
    intro a ha
    have := inv.msgsBounded a ha
    dsimp only
    omega
  · intro m hm
    rcases List.mem_append.mp hm with h | h
    · have := inv.msgsBounded m h
      dsimp only
      omega
    · rw [List.mem_singleton.mp h]
      dsimp only
      omega
  · exact inv.reqsSorted
  · exact inv.reqsBounded
  · exact inv.reqsEventBounded
  · exact inv.membersConvBounded
  · exact inv.memberUnique
  · exact inv.eventConvUnique
  · exact inv.convEventBounded
  · exact inv.hostOwner
  · exact inv.pendingFree
  · exact inv.pendingUnique

theorem inv_updateReadState (s : RepoState) (cid uid x now : Int)
    (inv : RepoInv s) : RepoInv (updateReadState s cid uid x now) := by
  unfold updateReadState upsertReadState
  split
  · exact inv
  · split
    · exact ⟨inv.eventsSorted, inv.eventsBounded, inv.convsSorted, inv.convsBounded,
        inv.msgsSorted, inv.msgsBounded, inv.reqsSorted, inv.reqsBounded,
        inv.reqsEventBounded, inv.membersConvBounded, inv.memberUnique,
        inv.eventConvUnique, inv.convEventBounded, inv.hostOwner, inv.pendingFree,
        inv.pendingUnique⟩
    · exact ⟨inv.eventsSorted, inv.eventsBounded, inv.convsSorted, inv.convsBounded,
        inv.msgsSorted, inv.msgsBounded, inv.reqsSorted, inv.reqsBounded,
        inv.reqsEventBounded, inv.membersConvBounded, inv.memberUnique,
        inv.eventConvUnique, inv.convEventBounded, inv.hostOwner, inv.pendingFree,
        inv.pendingUnique⟩

theorem pending_pair_unique (s : RepoState) (inv : RepoInv s) :
    ∀ a ∈ s.joinRequests, ∀ b ∈ s.joinRequests,
    a.eventId = b.eventId → a.userId = b.userId →
    a.status = "pending" → b.status = "pending" → a = b := by
  have hsym : Symmetric (fun a b : ConversationJoinRequest =>
      ¬(a.eventId = b.eventId ∧ a.userId = b.userId ∧
        a.status = "pending" ∧ b.status = "pending")) := by
    intro a b hab hcontra
    exact hab ⟨hcontra.1.symm, hcontra.2.1.symm, hcontra.2.2.2, hcontra.2.2.1⟩
  intro a ha b hb he hu hpa hpb
  by_cases heq : a = b
  · exact heq
  · exact absurd ⟨he, hu, hpa, hpb⟩
      (List.Pairwise.forall hsym inv.pendingUnique ha hb heq)

theorem findEvent_facts (s : RepoState) (eid : Int) (event : Event)
    (h : findEvent s eid = some event) : event ∈ s.events ∧ event.id = eid := by
  refine ⟨List.mem_of_find?_eq_some h, ?_⟩
  have := List.find?_some h
  simpa using this

theorem findConv_facts (s : RepoState) (eid : Int) (convo : Conversation)
    (h : findConversationByEventId s eid = some convo) :
    convo ∈ s.conversations ∧ convo.eventId = some eid := by
  refine ⟨List.mem_of_find?_eq_some h, ?_⟩
  have := List.find?_some h
  simpa using this

theorem findPending_facts (s : RepoState) (eid uid : Int)
    (req : ConversationJoinRequest) (h : findPendingJoinRequest s eid uid = some req) :
    req ∈ s.joinRequests ∧ req.eventId = eid ∧ req.userId = uid ∧
    req.status = "pending" := by
  have h2 := List.find?_some h
  have h3 : (req.eventId = eid ∧ req.userId = uid) ∧ req.status = "pending" := by
    simpa using h2
  exact ⟨List.mem_of_find?_eq_some h, h3.1.1, h3.1.2, h3.2⟩

theorem notMember_facts (s : RepoState) (cid uid : Int)
    (h : ¬ isConversationMember s cid uid = true) :
    ∀ m ∈ s.members, ¬(m.conversationId = cid ∧ m.userId = uid) := by
  intro m hm hc
  apply h
  apply List.any_eq_true.mpr
  exact ⟨m, hm, by simp [hc.1, hc.2]⟩

theorem inv_createJoinRequest (s : RepoState) (eid uid now : Int)
    (inv : RepoInv s) (hnow : s.clock ≤ now) :
    RepoInv (applyExceptPair s (createJoinRequest s eid uid now)) := by
  unfold createJoinRequest
  cases hev : findEvent s eid with
  | none => exact inv
  | some event =>
    dsimp only
    obtain ⟨hevmem, hevid⟩ := findEvent_facts s eid event hev
    split
    · exact inv
    · rename_i hhostne
      cases hconv : findConversationByEventId s eid with
      | none => exact inv
      | some convo =>
        dsimp only
        obtain ⟨hcvmem, hcvid⟩ := findConv_facts s eid convo hconv
        split
        · exact inv
        · rename_i hmemf
          split
          · exact inv
          · rename_i hpnone
            have hnopending : ∀ r ∈ s.joinRequests,
                ¬(r.eventId = eid ∧ r.userId = uid ∧ r.status = "pending") := by
              intro r hr hc
              apply hpnone
              unfold findPendingJoinRequest
              rw [List.find?_isSome]
              exact ⟨r, hr, by simp [hc.1, hc.2.1, hc.2.2]⟩
            simp only [applyExceptPair]
            constructor
            · exact inv.eventsSorted
            · exact inv.eventsBounded
            · exact inv.convsSorted
            · exact inv.convsBounded
            · exact inv.msgsSorted
            · intro m hm
              have := inv.msgsBounded m hm
              dsimp only
              omega
            · apply pairwise_append_singleton _ _ _ inv.reqsSorted
              intro a ha
              exact inv.reqsBounded a ha
            · intro r hr
              rcases List.mem_append.mp hr with h | h
              · have := inv.reqsBounded r h
                dsimp only
                omega
              · rw [List.mem_singleton.mp h]
                dsimp only
                omega
            · intro r hr
              rcases List.mem_append.mp hr with h | h
              · exact inv.reqsEventBounded r h
              · rw [List.mem_singleton.mp h]
                dsimp only
                have := inv.eventsBounded event hevmem
                omega
            · exact inv.membersConvBounded
            · exact inv.memberUnique
            · exact inv.eventConvUnique
            · exact inv.convEventBounded
            · intro e he
              obtain ⟨c, hc, hce, m, hm, hmc, hmu, hmr⟩ := inv.hostOwner e he
              exact ⟨c, hc, hce, m, hm, hmc, hmu, hmr⟩
            · intro r hr hpending
              rcases List.mem_append.mp hr with h | h
              · exact inv.pendingFree r h hpending
              · rw [List.mem_singleton.mp h]
                dsimp only
                constructor
                · intro e2 he2 heq2
                  have : e2 = event := key_unique_of_pairwise (fun x => x.id)
                    s.events inv.eventsSorted e2 he2 event hevmem
                    (by show e2.id = event.id; omega)
                  rw [this]
                  intro hcontra
                  apply hhostne
                  simp [hcontra.symm]
                · intro c hc2 hceq2 m hm2 hcontra
                  have hcconvo : c = convo := by
                    have h1 := findConv_unique s.conversations inv.eventConvUnique
                      c hc2 eid hceq2
                    have h2 : findConversationByEventId s eid =
                        s.conversations.find? (fun x => x.eventId == some eid) := rfl
                    rw [h2, h1] at hconv
                    exact Option.some.inj hconv
                  rw [hcconvo] at hcontra
                  exact notMember_facts s convo.id uid hmemf m hm2
                    ⟨hcontra.1, hcontra.2⟩
            · apply pairwise_append_singleton _ _ _ inv.pendingUnique
              intro a ha hcontra
              exact hnopending a ha ⟨hcontra.1, hcontra.2.1, hcontra.2.2.1⟩

theorem setStatusFun_id (status : String) (db jid now : Int) (r : ConversationJoinRequest) :
    (setStatusFun status db jid now r).id = r.id := by
  unfold setStatusFun
  split <;> rfl

theorem setStatusFun_eventId (status : String) (db jid now : Int)
    (r : ConversationJoinRequest) :
    (setStatusFun status db jid now r).eventId = r.eventId := by
  unfold setStatusFun
  split <;> rfl

theorem setStatusFun_userId (status : String) (db jid now : Int)
    (r : ConversationJoinRequest) :
    (setStatusFun status db jid now r).userId = r.userId := by
  unfold setStatusFun
  split <;> rfl

theorem setStatusFun_pending (status : String) (hs : status ≠ "pending")
    (db jid now : Int) (r : ConversationJoinRequest)
    (hp : (setStatusFun status db jid now r).status = "pending") :
    setStatusFun status db jid now r = r := by
  unfold setStatusFun at hp ⊢
  split
  · rename_i hb
    rw [if_pos hb] at hp
    exact absurd hp hs
  · rfl

theorem setStatus_pending_mem (l : List ConversationJoinRequest) (status : String)
    (hs : status ≠ "pending") (db jid now : Int) :
    ∀ x ∈ setJoinRequestStatus l status db jid now, x.status = "pending" →
      x ∈ l ∧ (x.id == jid) = false := by
  intro x hx hp
  unfold setJoinRequestStatus at hx
  obtain ⟨r, hr, hfr⟩ := List.mem_map.mp hx
  have heqr : setStatusFun status db jid now r = r := by
    apply setStatusFun_pending status hs db jid now r
    rw [hfr]
    exact hp
  rw [heqr] at hfr
  subst hfr
  refine ⟨hr, ?_⟩
  cases hb2 : (r.id == jid) with
  | false => rfl
  | true =>
    exfalso
    have h3 : (setStatusFun status db jid now r).status = status := by
      unfold setStatusFun
      rw [if_pos hb2]
    rw [heqr] at h3
    rw [h3] at hp
    exact hs hp

theorem inv_setStatus (s : RepoState) (status : String) (hs : status ≠ "pending")
    (db jid now : Int) (inv : RepoInv s) (hnow : s.clock ≤ now) :
    RepoInv { s with
      joinRequests := setJoinRequestStatus s.joinRequests status db jid now,
      clock := now } := by
  constructor
  · exact inv.eventsSorted
  · exact inv.eventsBounded
  · exact inv.convsSorted
  · exact inv.convsBounded
  · exact inv.msgsSorted
  · intro m hm
    have := inv.msgsBounded m hm
    exact ⟨this.1, le_trans this.2 hnow⟩
  · unfold setJoinRequestStatus
    refine List.Pairwise.map _ ?_ inv.reqsSorted
    intro a b hab
    rw [setStatusFun_id, setStatusFun_id]
    exact hab
  · intro r hr
    unfold setJoinRequestStatus at hr
    obtain ⟨x, hx, hfx⟩ := List.mem_map.mp hr
    rw [← hfx, setStatusFun_id]
    exact inv.reqsBounded x hx
  · intro r hr
    unfold setJoinRequestStatus at hr
    obtain ⟨x, hx, hfx⟩ := List.mem_map.mp hr
    rw [← hfx, setStatusFun_eventId]
    exact inv.reqsEventBounded x hx
  · exact inv.membersConvBounded
  · exact inv.memberUnique
  · exact inv.eventConvUnique
  · exact inv.convEventBounded
  · exact inv.hostOwner
  · intro r hr hp
    have h2 := setStatus_pending_mem s.joinRequests status hs db jid now r hr hp
    exact inv.pendingFree r h2.1 hp
  · unfold setJoinRequestStatus
    refine List.Pairwise.map _ ?_ inv.pendingUnique
    intro a b hab hcontra
    apply hab
    have ha2 := setStatusFun_pending status hs db jid now a hcontra.2.2.1
    have hb2 := setStatusFun_pending status hs db jid now b hcontra.2.2.2
    rw [ha2, hb2] at hcontra
    exact hcontra

theorem inv_denyJoinRequest (s : RepoState) (eventId userId approverId now : Int)
    (inv : RepoInv s) (hnow : s.clock ≤ now) :
    RepoInv (applyExceptPair s (denyJoinRequest s eventId userId approverId now)) := by
  unfold denyJoinRequest
  split
  · exact inv
  · split
    · exact inv
    · split
      · exact inv
      · dsimp only
        split
        · exact inv
        · simp only [applyExceptPair]
          exact inv_setStatus s "denied" (by decide) approverId _ now inv hnow

theorem inv_approveJoinRequest (s : RepoState) (eventId userId approverId now : Int)
    (inv : RepoInv s) (hnow : s.clock ≤ now) :
    RepoInv (applyExceptPair s (approveJoinRequest s eventId userId approverId now)) := by
  unfold approveJoinRequest
  split
  · exact inv
  · rename_i event hev
    split
    · exact inv
    · split
      · exact inv
      · rename_i convo hconv
        split
        · exact inv
        · rename_i hmemf
          split
          · exact inv
          · rename_i req hpend
            dsimp only
            split
            · exact inv
            · rename_i updated hupd
              simp only [applyExceptPair]
              obtain ⟨hcvmem, hcvid⟩ := findConv_facts s eventId convo hconv
              obtain ⟨hreqmem, hreqe, hrequ, hreqp⟩ :=
                findPending_facts s eventId userId req hpend
              have inv1 := inv_setStatus s "approved" (by decide) approverId req.id now
                inv hnow
              unfold insertMemberRow
              split
              · exact inv1
              · constructor
                · exact inv1.eventsSorted
                · exact inv1.eventsBounded
                · exact inv1.convsSorted
                · exact inv1.convsBounded
                · exact inv1.msgsSorted
                · exact inv1.msgsBounded
                · exact inv1.reqsSorted
                · exact inv1.reqsBounded
                · exact inv1.reqsEventBounded
                · intro m hm
                  rcases List.mem_append.mp hm with h | h
                  · exact inv.membersConvBounded m h
                  · rw [List.mem_singleton.mp h]
                    exact inv.convsBounded convo hcvmem
                · apply pairwise_append_singleton _ _ _ inv.memberUnique
                  intro a ha hcontra
                  exact notMember_facts s convo.id userId hmemf a ha
                    ⟨hcontra.1, hcontra.2⟩
                · exact inv1.eventConvUnique
                · exact inv1.convEventBounded
                · intro e he
                  obtain ⟨c, hc, hce, m, hm, h1, h2, h3⟩ := inv.hostOwner e he
                  exact ⟨c, hc, hce, m, List.mem_append_left _ hm, h1, h2, h3⟩
                · intro r hr hp
                  obtain ⟨hrold, hidne⟩ := setStatus_pending_mem s.joinRequests
                    "approved" (by decide) approverId req.id now r hr hp
                  refine ⟨(inv.pendingFree r hrold hp).1, ?_⟩
                  intro c hc hce m hm hcontra
                  rcases List.mem_append.mp hm with h | h
                  · exact (inv.pendingFree r hrold hp).2 c hc hce m h hcontra
                  · rw [List.mem_singleton.mp h] at hcontra
                    have hceq : c = convo := key_unique_of_pairwise (fun x => x.id)
                      s.conversations inv.convsSorted c hc convo hcvmem
                      hcontra.1.symm
                    rw [hceq] at hce
                    rw [hcvid] at hce
                    have hre2 : r.eventId = req.eventId := by
                      have := Option.some.inj hce
                      omega
                    have hru2 : r.userId = req.userId := by
                      have h5 : userId = r.userId := hcontra.2
                      omega
                    have hreq : r = req := pending_pair_unique s inv r hrold req
                      hreqmem hre2 hru2 hp hreqp
                    have h6 : r.id = req.id := by rw [hreq]
                    rw [h6] at hidne
                    simp at hidne
                · exact inv1.pendingUnique

theorem inv_removeEventMember (s : RepoState) (eventId userId : Int)
    (inv : RepoInv s) :
    RepoInv (applyExcept s (removeEventMember s eventId userId)) := by
  unfold removeEventMember
  split
  · exact inv
  · rename_i event hev
    split
    · exact inv
    · rename_i hhost
      split
      · exact inv
      · rename_i convo hconv
        split
        · exact inv
        · simp only [applyExcept]
          obtain ⟨hevmem, hevid⟩ := findEvent_facts s eventId event hev
          obtain ⟨hcvmem, hcvid⟩ := findConv_facts s eventId convo hconv
          have hhostne : event.userId ≠ userId := by
            intro h
            exact hhost (by simp [h])
          constructor
          · exact inv.eventsSorted
          · exact inv.eventsBounded
          · exact inv.convsSorted
          · exact inv.convsBounded
          · exact inv.msgsSorted
          · exact inv.msgsBounded
          · exact inv.reqsSorted
          · exact inv.reqsBounded
          · exact inv.reqsEventBounded
          · intro m hm
            exact inv.membersConvBounded m (List.mem_of_mem_filter hm)
          · exact List.Pairwise.filter _ inv.memberUnique
          · exact inv.eventConvUnique
          · exact inv.convEventBounded
          · intro e he
            obtain ⟨c, hc, hce, m, hm, h1, h2, h3⟩ := inv.hostOwner e he
            refine ⟨c, hc, hce, m, ?_, h1, h2, h3⟩
            rw [List.mem_filter]
            refine ⟨hm, ?_⟩
            by_contra hx
            have hx2 : (m.conversationId == convo.id && m.userId == userId) = true := by
              cases h4 : (m.conversationId == convo.id && m.userId == userId)
              · exact absurd (by rw [h4]; rfl) hx
              · rfl
            simp only [Bool.and_eq_true, beq_iff_eq] at hx2
            have hcc : c = convo := key_unique_of_pairwise (fun x => x.id)
              s.conversations inv.convsSorted c hc convo hcvmem
              (by show c.id = convo.id; omega)
            rw [hcc] at hce
            rw [hcvid] at hce
            have hee : e = event := key_unique_of_pairwise (fun x => x.id)
              s.events inv.eventsSorted e he event hevmem
              (by show e.id = event.id; have := Option.some.inj hce; omega)
            apply hhostne
            rw [← hee]
            omega
          · intro r hr hp
            refine ⟨(inv.pendingFree r hr hp).1, ?_⟩
            intro c hc hce m hm hcontra
            exact (inv.pendingFree r hr hp).2 c hc hce m (List.mem_of_mem_filter hm)
              hcontra
          · exact inv.pendingUnique

theorem inv_init : RepoInv RepoState.init := by
  constructor <;> simp [RepoState.init]

/-- Every reachable repository state satisfies the store invariant. -/
theorem reach_inv (s : RepoState) (h : Reach s) : RepoInv s := by
  induction h with
  | init => exact inv_init
  | stepCreateEvent t p dt _ ih =>
    exact inv_createEvent t p (t.clock + dt) ih (by omega)
  | stepUpdateEvent t id userId p _ ih => exact inv_updateEvent t id userId p ih
  | stepDeleteEvent t id userId _ ih => exact inv_deleteEvent t id userId ih
  | stepCreateConversation t title createdBy memberIds dt _ ih =>
    exact inv_createConversation t title createdBy memberIds (t.clock + dt) ih (by omega)
  | stepCreateMessage t p dt _ ih =>
    exact inv_createMessage t p (t.clock + dt) ih (by omega)
  | stepUpdateReadState t cid uid x dt _ ih =>
    exact inv_updateReadState t cid uid x (t.clock + dt) ih
  | stepCreateJoinRequest t eventId userId dt _ ih =>
    exact inv_createJoinRequest t eventId userId (t.clock + dt) ih (by omega)
  | stepApproveJoinRequest t eventId userId approverId dt _ ih =>
    exact inv_approveJoinRequest t eventId userId approverId (t.clock + dt) ih (by omega)
  | stepDenyJoinRequest t eventId userId approverId dt _ ih =>
    exact inv_denyJoinRequest t eventId userId approverId (t.clock + dt) ih (by omega)
  | stepRemoveEventMember t eventId userId _ ih =>
    exact inv_removeEventMember t eventId userId ih

theorem insertMemberRow_events (t : RepoState) (cid uid : Int) (role : String)
    (now : Int) : (insertMemberRow t cid uid role now).events = t.events := by
  unfold insertMemberRow
  split <;> rfl

theorem insertMemberRow_conversations (t : RepoState) (cid uid : Int) (role : String)
    (now : Int) :
    (insertMemberRow t cid uid role now).conversations = t.conversations := by
  unfold insertMemberRow
  split <;> rfl

theorem insertMemberRow_messages (t : RepoState) (cid uid : Int) (role : String)
    (now : Int) : (insertMemberRow t cid uid role now).messages = t.messages := by
  unfold insertMemberRow
  split <;> rfl

theorem insertMemberRow_readStates (t : RepoState) (cid uid : Int) (role : String)
    (now : Int) : (insertMemberRow t cid uid role now).readStates = t.readStates := by
  unfold insertMemberRow
  split <;> rfl

theorem insertMemberRow_joinRequests (t : RepoState) (cid uid : Int) (role : String)
    (now : Int) :
    (insertMemberRow t cid uid role now).joinRequests = t.joinRequests := by
  unfold insertMemberRow
  split <;> rfl

theorem findJoinRequestById_insert (t : RepoState) (cid uid : Int) (role : String)
    (now jid : Int) :
    findJoinRequestById (insertMemberRow t cid uid role now) jid =
      findJoinRequestById t jid := by
  unfold findJoinRequestById insertMemberRow
  split <;> rfl

theorem insertMemberRow_members_new (t : RepoState) (cid uid : Int) (role : String)
    (now : Int) (h : isConversationMember t cid uid = false) :
    (insertMemberRow t cid uid role now).members = t.members ++
      [{ conversationId := cid, userId := uid, joinedAt := now, role := role }] := by
  unfold insertMemberRow
  rw [show (t.members.any fun m => m.conversationId == cid && m.userId == uid) = false
    from h]
  rw [if_neg (by simp)]

/-- A second createJoinRequest against a state already holding a matching
pending request stops at the pending check with joinRequestExists. -/
theorem createJoinRequest_exists (t : RepoState) (eid uid now : Int)
    (event : Event) (hev : findEvent t eid = some event)
    (hhost : (event.userId == uid) = false)
    (convo : Conversation) (hcv : findConversationByEventId t eid = some convo)
    (hmem : isConversationMember t convo.id uid = false)
    (hpend : (findPendingJoinRequest t eid uid).isSome = true) :
    createJoinRequest t eid uid now = Except.error RepoError.joinRequestExists := by
  unfold createJoinRequest
  rw [hev]
  dsimp only
  rw [hhost]
  simp only [Bool.false_eq_true, if_false]
  rw [hcv]
  dsimp only
  rw [hmem]
  simp only [Bool.false_eq_true, if_false]
  rw [hpend]
  simp only [if_true]

/-- After updateJoinRequestStatus on a row of a table with strictly increasing
ids, looking the id up again returns exactly the updated row. -/
theorem find_setStatus :
    ∀ (l : List ConversationJoinRequest), l.Pairwise (fun a b => a.id < b.id) →
    ∀ req ∈ l, ∀ (st : String) (db now : Int),
    (setJoinRequestStatus l st db req.id now).find? (fun x => x.id == req.id) =
      some (setStatusFun st db req.id now req) := by
  intro l
  induction l with
  | nil =>
    intro _ req hreq
    cases hreq
  | cons a t ih =>
    intro hl req hreq st db now
    unfold setJoinRequestStatus
    rw [List.map_cons]
    rcases List.mem_cons.mp hreq with rfl | hmem
    · rw [List.find?_cons_of_pos _ (by rw [setStatusFun_id]; simp)]
    · have hlt : a.id < req.id := (List.pairwise_cons.mp hl).1 req hmem
      rw [List.find?_cons_of_neg _
        (by rw [setStatusFun_id]; simp only [beq_iff_eq]; omega)]
      have h2 := ih (List.pairwise_cons.mp hl).2 req hmem st db now
      unfold setJoinRequestStatus at h2
      exact h2

theorem foldLatest_isSome :
    ∀ (l : List Message) (b : Message), ∃ c,
    l.foldl (fun acc m => match acc with
      | none => some m
      | some b2 => if b2.createdAt < m.createdAt then some m else some b2)
      (some b) = some c := by
  intro l
  induction l with
  | nil =>
    intro b
    exact ⟨b, rfl⟩
  | cons a t ih =>
    intro b
    rw [List.foldl_cons]
    dsimp only
    by_cases hc : b.createdAt < a.createdAt
    · rw [if_pos hc]
      exact ih a
    · rw [if_neg hc]
      exact ih b

theorem foldLatest_props :
    ∀ (l : List Message) (b : Message),
    (b :: l).Pairwise (fun x y => x.id < y.id ∧ x.createdAt ≤ y.createdAt) →
    ∃ c, l.foldl (fun acc m => match acc with
      | none => some m
      | some b2 => if b2.createdAt < m.createdAt then some m else some b2)
      (some b) = some c ∧ c ∈ b :: l ∧
      (∀ m ∈ b :: l, m.createdAt ≤ c.createdAt) ∧
      (∀ m ∈ b :: l, m.createdAt = c.createdAt → c.id ≤ m.id) ∧
      (c = b ∨ b.createdAt < c.createdAt) := by
  intro l
  induction l with
  | nil =>
    intro b _
    refine ⟨b, rfl, List.mem_cons_self b [], ?_, ?_, Or.inl rfl⟩
    · intro m hm
      have he := List.mem_singleton.mp hm
      subst he
      exact le_refl _
    · intro m hm _
      have he := List.mem_singleton.mp hm
      subst he
      exact le_refl _
  | cons a t ih =>
    intro b hpw
    rw [List.foldl_cons]
    dsimp only
    have hba : b.id < a.id ∧ b.createdAt ≤ a.createdAt :=
      (List.pairwise_cons.mp hpw).1 a (List.mem_cons_self a t)
    by_cases hcmp : b.createdAt < a.createdAt
    · rw [if_pos hcmp]
      obtain ⟨c, hfold, hmem, hmax, hties, hmove⟩ :=
        ih a (List.pairwise_cons.mp hpw).2
      refine ⟨c, hfold, List.mem_cons_of_mem b hmem, ?_, ?_, ?_⟩
      · intro m hm
        rcases List.mem_cons.mp hm with hmb | hm2
        · have hac := hmax a (List.mem_cons_self a t)
          rw [hmb]
          omega
        · exact hmax m hm2
      · intro m hm heq2
        rcases List.mem_cons.mp hm with hmb | hm2
        · have hac := hmax a (List.mem_cons_self a t)
          rw [hmb] at heq2
          rw [hmb]
          omega
        · exact hties m hm2 heq2
      · right
        rcases hmove with hca | hlt
        · rw [hca]
          exact hcmp
        · omega
    · rw [if_neg hcmp]
      have heq : a.createdAt = b.createdAt := by
        have h2 := hba.2
        omega
      have hpw2 : (b :: t).Pairwise
          (fun x y => x.id < y.id ∧ x.createdAt ≤ y.createdAt) := by
        rcases List.pairwise_cons.mp hpw with ⟨hbrest, hat⟩
        rcases List.pairwise_cons.mp hat with ⟨harest, ht⟩
        exact List.pairwise_cons.mpr
          ⟨fun y hy => hbrest y (List.mem_cons_of_mem a hy), ht⟩
      obtain ⟨c, hfold, hmem, hmax, hties, hmove⟩ := ih b hpw2
      refine ⟨c, hfold, ?_, ?_, ?_, hmove⟩
      · rcases List.mem_cons.mp hmem with hcb | hm2
        · rw [hcb]
          exact List.mem_cons_self b (a :: t)
        · exact List.mem_cons_of_mem b (List.mem_cons_of_mem a hm2)
      · intro m hm
        rcases List.mem_cons.mp hm with hmb | hm2
        · rw [hmb]
          exact hmax b (List.mem_cons_self b t)
        · rcases List.mem_cons.mp hm2 with hma | hm3
          · have hbc := hmax b (List.mem_cons_self b t)
            rw [hma]
            omega
          · exact hmax m (List.mem_cons_of_mem b hm3)
      · intro m hm hmeq
        rcases List.mem_cons.mp hm with hmb | hm2
        · rw [hmb] at hmeq
          rw [hmb]
          exact hties b (List.mem_cons_self b t) hmeq
        · rcases List.mem_cons.mp hm2 with hma | hm3
          · rw [hma] at hmeq
            rw [hma]
            rcases hmove with hcb | hlt
            · rw [hcb]
              have h1 := hba.1
              omega
            · omega
          · exact hties m (List.mem_cons_of_mem b hm3) hmeq

def demoEvent1 : Event :=
  { id := 1, userId := 1, title := "Running Buddy", location := "Phoenix Park",
    time := "09:00", description := "Morning run.", gender := "Any", minAge := 20,
    maxAge := 30, dateLabel := "Today", createdAt := 0 }

def demoReq1 : ConversationJoinRequest :=
  { id := 1, eventId := 1, userId := 2, status := "pending", createdAt := 0,
    decidedAt := none, decidedBy := none }

def demoReq1Approved : ConversationJoinRequest :=
  { id := 1, eventId := 1, userId := 2, status := "approved", createdAt := 0,
    decidedAt := some 0, decidedBy := some 1 }

def demoS2Approved : RepoState :=
  applyExceptPair demoS2 (approveJoinRequest demoS2 1 2 1 0)

theorem reach_demoS1 : Reach demoS1 :=
  Reach.stepCreateEvent RepoState.init demoEventParams 0 Reach.init

theorem reach_demoS2 : Reach demoS2 :=
  Reach.stepCreateJoinRequest demoS1 1 2 0 reach_demoS1

theorem reach_demoS3 : Reach demoS3 :=
  Reach.stepCreateMessage (createMessage demoS2 demoMsgParams 0).2 demoMsgParams 3
    (Reach.stepCreateMessage demoS2 demoMsgParams 0 reach_demoS2)

/-- C2: in every reachable state, the host of each event is a member with role
owner of the event's conversation, and removeEventMember on the host always
fails with cannotRemoveHost, leaving the stored state unchanged. -/
theorem c2_host_owner_invariant (s : RepoState) (h : Reach s) :
    ∀ e ∈ s.events,
      (∃ c ∈ s.conversations, c.eventId = some e.id ∧
        ∃ m ∈ s.members, m.conversationId = c.id ∧ m.userId = e.userId ∧
          m.role = "owner") ∧
      removeEventMember s e.id e.userId = Except.error RepoError.cannotRemoveHost ∧
      applyExcept s (removeEventMember s e.id e.userId) = s := by
  intro e he
  have inv := reach_inv s h
  have hfind : findEvent s e.id = some e := by
    show s.events.find? (fun x => x.id == e.id) = some e
    exact find?_key_unique (fun x => x.id) s.events inv.eventsSorted e he
  have herr : removeEventMember s e.id e.userId =
      Except.error RepoError.cannotRemoveHost := by
    unfold removeEventMember
    rw [hfind]
    dsimp only
    rw [if_pos (by simp)]
  exact ⟨inv.hostOwner e he, herr, by rw [herr]; rfl⟩

theorem c2_host_owner_invariant_witness :
    (∃ c ∈ demoS1.conversations, c.eventId = some demoEvent1.id ∧
      ∃ m ∈ demoS1.members, m.conversationId = c.id ∧ m.userId = demoEvent1.userId ∧
        m.role = "owner") ∧
    removeEventMember demoS1 demoEvent1.id demoEvent1.userId =
      Except.error RepoError.cannotRemoveHost ∧
    applyExcept demoS1 (removeEventMember demoS1 demoEvent1.id demoEvent1.userId) =
      demoS1 :=
  c2_host_owner_invariant demoS1 reach_demoS1 demoEvent1 (by decide)

/-- C3: a successful createJoinRequest leaves the table with at most one
pending request per (eventId, userId) pair, and repeating the same call
returns joinRequestExists, leaving the store unchanged. -/
theorem c3_at_most_one_pending (s : RepoState) (h : Reach s)
    (eid uid now1 now2 : Int) (r : ConversationJoinRequest) (s1 : RepoState)
    (hfirst : createJoinRequest s eid uid now1 = Except.ok (r, s1)) :
    s1.joinRequests.Pairwise (fun a b =>
      ¬(a.eventId = b.eventId ∧ a.userId = b.userId ∧
        a.status = "pending" ∧ b.status = "pending")) ∧
    createJoinRequest s1 eid uid now2 = Except.error RepoError.joinRequestExists ∧
    applyExceptPair s1 (createJoinRequest s1 eid uid now2) = s1 := by
  have inv := reach_inv s h
  unfold createJoinRequest at hfirst
  split at hfirst
  · exact absurd hfirst (by simp)
  · rename_i event hev
    split at hfirst
    · exact absurd hfirst (by simp)
    · rename_i hhost
      split at hfirst
      · exact absurd hfirst (by simp)
      · rename_i convo hconv
        split at hfirst
        · exact absurd hfirst (by simp)
        · rename_i hmem
          split at hfirst
          · exact absurd hfirst (by simp)
          · rename_i hpend
            injection hfirst with hpair
            injection hpair with hr hs
            have hjr : s1.joinRequests = s.joinRequests ++ [r] := by
              rw [← hs, ← hr]
            have hre : r.eventId = eid := by rw [← hr]
            have hru : r.userId = uid := by rw [← hr]
            have hrp : r.status = "pending" := by rw [← hr]
            
            have hhost2 : (event.userId == uid) = false := by
              cases hb : (event.userId == uid)
              · rfl
              · exact absurd hb hhost
            have hm0 : isConversationMember s convo.id uid = false := by
              cases hb : isConversationMember s convo.id uid
              · rfl
              · exact absurd hb hmem
            have hev1 : findEvent s1 eid = some event := by
              rw [← hs]; exact hev
            have hcv1 : findConversationByEventId s1 eid = some convo := by
              rw [← hs]; exact hconv
            have hmem1 : isConversationMember s1 convo.id uid = false := by
              rw [← hs]; exact hm0
            have hpend1 : (findPendingJoinRequest s1 eid uid).isSome = true := by
              unfold findPendingJoinRequest
              rw [List.find?_isSome]
              refine ⟨r, ?_, ?_⟩
              · rw [hjr]
                exact List.mem_append_right _ (List.mem_singleton.mpr rfl)
              · simp [hre, hru, hrp]
            have hA := createJoinRequest_exists s1 eid uid now2 event hev1 hhost2
              convo hcv1 hmem1 hpend1
            refine ⟨?_, hA, by rw [hA]; rfl⟩
            rw [hjr]
            apply pairwise_append_singleton _ _ _ inv.pendingUnique
            intro a ha hcontra
            apply hpend
            unfold findPendingJoinRequest
            rw [List.find?_isSome]
            refine ⟨a, ha, ?_⟩
            have h1 : a.eventId = eid := hcontra.1.trans hre
            have h2 : a.userId = uid := hcontra.2.1.trans hru
            simp [h1, h2, hcontra.2.2.1]

theorem c3_at_most_one_pending_witness :
    demoS2.joinRequests.Pairwise (fun a b =>
      ¬(a.eventId = b.eventId ∧ a.userId = b.userId ∧
        a.status = "pending" ∧ b.status = "pending")) ∧
    createJoinRequest demoS2 1 2 0 = Except.error RepoError.joinRequestExists ∧
    applyExceptPair demoS2 (createJoinRequest demoS2 1 2 0) = demoS2 :=
  c3_at_most_one_pending demoS1 reach_demoS1 1 2 0 0 demoReq1 demoS2 (by rfl)

/-- C4: approveJoinRequest fails with notEventHost whenever the approver is
not the event host; on success the returned row is the pending request
flipped to approved with decidedAt and decidedBy stamped, the requester is
inserted as a member of the event's conversation, and every other table is
unchanged; on any error the stored state is unchanged. -/
theorem c4_approve_flip (s : RepoState) (h : Reach s)
    (eid uid approver now : Int) :
    (∀ event, findEvent s eid = some event → event.userId ≠ approver →
      approveJoinRequest s eid uid approver now =
        Except.error RepoError.notEventHost) ∧
    (∀ req s2, approveJoinRequest s eid uid approver now = Except.ok (req, s2) →
      req.status = "approved" ∧ req.decidedAt = some now ∧
      req.decidedBy = some approver ∧
      s2.joinRequests = setJoinRequestStatus s.joinRequests "approved" approver
        req.id now ∧
      (∃ convo, findConversationByEventId s eid = some convo ∧
        s2.members = s.members ++ [{ conversationId := convo.id, userId := uid, joinedAt := now, role := "member" }]) ∧
      s2.events = s.events ∧ s2.conversations = s.conversations ∧
      s2.messages = s.messages ∧ s2.readStates = s.readStates) ∧
    (∀ err, approveJoinRequest s eid uid approver now = Except.error err →
      applyExceptPair s (approveJoinRequest s eid uid approver now) = s) := by
  have inv := reach_inv s h
  refine ⟨?_, ?_, ?_⟩
  · intro event hev hne
    unfold approveJoinRequest
    rw [hev]
    dsimp only
    rw [if_pos (by simp [hne])]
  · intro req s2 hok
    unfold approveJoinRequest at hok
    split at hok
    · exact absurd hok (by simp)
    · rename_i event hev
      split at hok
      · exact absurd hok (by simp)
      · rename_i hhost
        split at hok
        · exact absurd hok (by simp)
        · rename_i convo hconv
          split at hok
          · exact absurd hok (by simp)
          · rename_i hmem
            split at hok
            · exact absurd hok (by simp)
            · rename_i req0 hpend
              dsimp only at hok
              rw [findJoinRequestById_insert] at hok
              split at hok
              · exact absurd hok (by simp)
              · rename_i updated hupd
                obtain ⟨hreqmem, hreqe, hrequ, hreqp⟩ :=
                  findPending_facts s eid uid req0 hpend
                have hupd2 : (setJoinRequestStatus s.joinRequests "approved"
                    approver req0.id now).find? (fun x => x.id == req0.id) =
                    some updated := hupd
                rw [find_setStatus s.joinRequests inv.reqsSorted req0 hreqmem
                  "approved" approver now] at hupd2
                have hupdated := Option.some.inj hupd2
                injection hok with hpair
                injection hpair with hru hs2
                rw [← hupdated] at hru
                have hm0 : isConversationMember s convo.id uid = false := by
                  cases hb : isConversationMember s convo.id uid
                  · rfl
                  · exact absurd hb hmem
                refine ⟨?_, ?_, ?_, ?_, ⟨convo, hconv, ?_⟩, ?_, ?_, ?_, ?_⟩
                · rw [← hru]
                  unfold setStatusFun
                  rw [if_pos (by simp)]
                · rw [← hru]
                  unfold setStatusFun
                  rw [if_pos (by simp)]
                · rw [← hru]
                  unfold setStatusFun
                  rw [if_pos (by simp)]
                · rw [← hs2, ← hru, setStatusFun_id, insertMemberRow_joinRequests]
                · rw [← hs2]
                  refine (insertMemberRow_members_new _ convo.id uid "member"
                    now ?_).trans ?_
                  · exact hm0
                  · rfl
                · rw [← hs2, insertMemberRow_events]
                · rw [← hs2, insertMemberRow_conversations]
                · rw [← hs2, insertMemberRow_messages]
                · rw [← hs2, insertMemberRow_readStates]
  · intro err herr
    rw [herr]
    rfl

theorem c4_approve_flip_witness :
    demoReq1Approved.status = "approved" ∧ demoReq1Approved.decidedAt = some 0 ∧
    demoReq1Approved.decidedBy = some 1 ∧
    demoS2Approved.joinRequests = setJoinRequestStatus demoS2.joinRequests
      "approved" 1 demoReq1Approved.id 0 ∧
    (∃ convo, findConversationByEventId demoS2 1 = some convo ∧
      demoS2Approved.members = demoS2.members ++ [{ conversationId := convo.id, userId := 2, joinedAt := 0, role := "member" }]) ∧
    demoS2Approved.events = demoS2.events ∧
    demoS2Approved.conversations = demoS2.conversations ∧
    demoS2Approved.messages = demoS2.messages ∧
    demoS2Approved.readStates = demoS2.readStates :=
  (c4_approve_flip demoS2 reach_demoS2 1 2 1 0).2.1 demoReq1Approved
    demoS2Approved (by rfl)

/-- C5 counterexample: a reachable store where two messages of conversation 1
share one created_at; the latest-message query returns the smallest id among
the ties, so with the read cursor at that id the unread count short-circuits
to 0 while one message above the cursor remains unread. -/
theorem c5_counterexample :
    Reach demoTieState ∧
    countUnreadMessages demoTieState 1 2 (fetchLatestMessage demoTieState 1) = 0 ∧
    (demoTieState.messages.filter (fun m => m.conversationId == 1 &&
      decide ((readCursor demoTieState 1 2).getD 0 < m.id))).length = 1 := by
  refine ⟨?_, rfl, rfl⟩
  exact Reach.stepUpdateReadState _ 1 2 1 0
    (Reach.stepCreateMessage _ demoMsgParams 0
      (Reach.stepCreateMessage demoS2 demoMsgParams 0 reach_demoS2))

/-- C5 (amended): the latest message of a conversation, when one exists, has
the newest created_at and the smallest id among the messages tying that
created_at; the hydration unread count equals the number of messages of the
conversation with id strictly above the stored cursor whenever the cursor is
absent or below the latest id, it is 0 when the conversation has no latest
message, and it short-circuits to 0 whenever the stored cursor is at or above
the latest id, even though newest-timestamp ties with larger ids can then
still lie above the cursor. -/
theorem c5_unread_early_out (s : RepoState) (h : Reach s) (cid uid : Int) :
    (fetchLatestMessage s cid = none →
      countUnreadMessages s cid uid (fetchLatestMessage s cid) = 0 ∧
      (s.messages.filter (fun m => m.conversationId == cid &&
        decide ((readCursor s cid uid).getD 0 < m.id))).length = 0) ∧
    (∀ lm, fetchLatestMessage s cid = some lm →
      lm ∈ s.messages.filter (fun m => m.conversationId == cid) ∧
      (∀ m ∈ s.messages.filter (fun m2 => m2.conversationId == cid),
        m.createdAt ≤ lm.createdAt ∧ (m.createdAt = lm.createdAt → lm.id ≤ m.id)) ∧
      (readCursor s cid uid = none →
        countUnreadMessages s cid uid (fetchLatestMessage s cid) =
          (s.messages.filter (fun m => m.conversationId == cid &&
            decide (0 < m.id))).length) ∧
      (∀ v, readCursor s cid uid = some v → v < lm.id →
        countUnreadMessages s cid uid (fetchLatestMessage s cid) =
          (s.messages.filter (fun m => m.conversationId == cid &&
            decide (v < m.id))).length) ∧
      (∀ v, readCursor s cid uid = some v → lm.id ≤ v →
        countUnreadMessages s cid uid (fetchLatestMessage s cid) = 0)) := by
  have inv := reach_inv s h
  constructor
  · intro hnone
    rw [hnone]
    refine ⟨rfl, ?_⟩
    rw [List.length_eq_zero, List.filter_eq_nil_iff]
    intro m hm hp
    simp only [Bool.and_eq_true, beq_iff_eq, decide_eq_true_eq] at hp
    have hmf : m ∈ s.messages.filter (fun m2 => m2.conversationId == cid) :=
      List.mem_filter.mpr ⟨hm, by simp [hp.1]⟩
    unfold fetchLatestMessage at hnone
    cases hfl : s.messages.filter (fun m2 => m2.conversationId == cid) with
    | nil =>
      rw [hfl] at hmf
      cases hmf
    | cons a t =>
      rw [hfl] at hnone
      rw [List.foldl_cons] at hnone
      dsimp only at hnone
      obtain ⟨c, hc⟩ := foldLatest_isSome t a
      rw [hc] at hnone
      cases hnone
  · intro lm hlm
    have hlm0 := hlm
    unfold fetchLatestMessage at hlm
    have hpw : (s.messages.filter (fun m => m.conversationId == cid)).Pairwise
        (fun x y => x.id < y.id ∧ x.createdAt ≤ y.createdAt) :=
      List.Pairwise.filter _ inv.msgsSorted
    cases hfl : s.messages.filter (fun m => m.conversationId == cid) with
    | nil =>
      rw [hfl] at hlm
      cases hlm
    | cons a t =>
      rw [hfl] at hlm hpw
      rw [List.foldl_cons] at hlm
      dsimp only at hlm
      obtain ⟨c, hfold, hmem, hmax, hties, _⟩ := foldLatest_props t a hpw
      rw [hfold] at hlm
      have hceq : c = lm := Option.some.inj hlm
      subst hceq
      refine ⟨?_, ?_, ?_, ?_, ?_⟩
      · exact hmem
      · intro m hm
        exact ⟨hmax m hm, fun he => hties m hm he⟩
      · intro hrc
        rw [hlm0]
        unfold countUnreadMessages
        dsimp only
        rw [hrc]
        rfl
      · intro v hrc hvlt
        rw [hlm0]
        unfold countUnreadMessages
        dsimp only
        rw [hrc]
        dsimp only
        rw [if_neg (by omega)]
        rfl
      · intro v hrc hlev
        rw [hlm0]
        unfold countUnreadMessages
        dsimp only
        rw [hrc]
        dsimp only
        rw [if_pos hlev]

/-- Witness applying the C5 amended theorem at the reachable demo store. -/
theorem c5_unread_early_out_witness :
    (fetchLatestMessage demoS3 1 = none →
      countUnreadMessages demoS3 1 2 (fetchLatestMessage demoS3 1) = 0 ∧
      (demoS3.messages.filter (fun m => m.conversationId == 1 &&
        decide ((readCursor demoS3 1 2).getD 0 < m.id))).length = 0) ∧
    (∀ lm, fetchLatestMessage demoS3 1 = some lm →
      lm ∈ demoS3.messages.filter (fun m => m.conversationId == 1) ∧
      (∀ m ∈ demoS3.messages.filter (fun m2 => m2.conversationId == 1),
        m.createdAt ≤ lm.createdAt ∧ (m.createdAt = lm.createdAt → lm.id ≤ m.id)) ∧
      (readCursor demoS3 1 2 = none →
        countUnreadMessages demoS3 1 2 (fetchLatestMessage demoS3 1) =
          (demoS3.messages.filter (fun m => m.conversationId == 1 &&
            decide (0 < m.id))).length) ∧
      (∀ v, readCursor demoS3 1 2 = some v → v < lm.id →
        countUnreadMessages demoS3 1 2 (fetchLatestMessage demoS3 1) =
          (demoS3.messages.filter (fun m => m.conversationId == 1 &&
            decide (v < m.id))).length) ∧
      (∀ v, readCursor demoS3 1 2 = some v → lm.id ≤ v →
        countUnreadMessages demoS3 1 2 (fetchLatestMessage demoS3 1) = 0)) :=
  c5_unread_early_out demoS3 reach_demoS3 1 2
